import Mathlib

/-!
# Verification of the multiplayer room coordinator (`src/roomManager.ts`)

This file gives a shallow embedding of the server-side room coordinator of
the keyless-golf repository and proves (or refutes) the specified claims
about it.  Each TypeScript `number` is modelled as `Int` (timestamps,
scores, shot counters) except list indices, which the code only ever sets
from array positions and which are modelled as `Nat`.  The in-memory
`Map<string, GameRoom>` is modelled as a `List GameRoom` in insertion
order; `Map.get` is `find?` on the id, `Map.set` replaces the entry with
the matching id (appending when absent) and `Map.delete` drops it.
Methods that return `false` without touching the store are modelled as
returning `(false, s)` with the store unchanged; operations whose
TypeScript code can throw (indexing an empty player array) return an
`Option`, with `none` standing for the thrown exception.
-/

namespace KeylessGolf

/-- Room status: `'waiting' | 'playing' | 'completed'`. -/
inductive Status where
  | waiting
  | playing
  | completed
deriving DecidableEq, Repr

/-- The `Player` interface of `roomManager.ts`. -/
structure Player where
  id : String
  name : String
  walletAddress : String
  score : Int
  shotsRemaining : Int
  isConnected : Bool
  isCurrentTurn : Bool
deriving DecidableEq, Repr

/-- The `GameRoom` interface of `roomManager.ts`. -/
structure GameRoom where
  id : String
  name : String
  hostId : String
  players : List Player
  maxPlayers : Int
  status : Status
  currentPlayerIndex : Nat
  shotsPerPlayer : Int
  rewardAmount : Int
  created : Int
  lastActivity : Int
deriving DecidableEq, Repr

/-- The room store: `Map<string, GameRoom>` in insertion order. -/
abbrev Store := List GameRoom

/-- Model of `rooms.get(roomId)` (raw map access, no `lastActivity` refresh). -/
def findRoom (s : Store) (roomId : String) : Option GameRoom :=
  List.find? (fun r => r.id = roomId) s

/-- Model of `rooms.set(room.id, room)`: replace the entry with this id, else append. -/
def setRoom (s : Store) (room : GameRoom) : Store :=
  if (List.any s fun r => r.id = room.id) then
    List.map (fun r => if r.id = room.id then room else r) s
  else
    s ++ [room]

/-- Model of `removeRoom(roomId)`, that is `rooms.delete(roomId)` (the event emission is not modelled). -/
def removeRoom (s : Store) (roomId : String) : Store :=
  List.filter (fun r => r.id ≠ roomId) s

/-- One step of the winner scan in `getWinner`: the loop body over
`(highestScore, winner)`, translated branch for branch. -/
def winnerStep (acc : Int × Option Player) (player : Player) : Int × Option Player :=
  if player.score > acc.1 then
    (player.score, some player)
  else if player.score = acc.1 ∧ acc.1 > 0 then
    -- Handle tie - first player with that score wins
    match acc.2 with
    | none => (acc.1, some player)
    | some w => (acc.1, some w)
  else acc

/-- Body of `getWinner` applied to a room already fetched from the map:
returns `null` unless `status === 'completed'`, else scans the players
with `highestScore` starting at `-1` and `winner` starting at `null`. -/
def getWinnerRoom (room : GameRoom) : Option Player :=
  if room.status = Status.completed then
    (List.foldl winnerStep (-1, none) room.players).2
  else none

/-- Model of `RoomManager.getWinner(roomId)`. -/
def getWinner (s : Store) (roomId : String) : Option Player :=
  match findRoom s roomId with
  | none => none
  | some room => getWinnerRoom room

/-- The 24-hour inactivity window, in milliseconds. -/
def maxInactiveTime : Int := 24 * 60 * 60 * 1000

/-- The filter predicate of `getActiveRooms`. -/
def isActiveRoom (now : Int) (room : GameRoom) : Bool :=
  room.status = Status.waiting ∨
    (room.status = Status.playing ∧ now - room.lastActivity < maxInactiveTime)

/-- Model of `RoomManager.getActiveRooms()`: filter, then sort newest-`created`-first. -/
def getActiveRooms (s : Store) (now : Int) : List GameRoom :=
  List.mergeSort (List.filter (isActiveRoom now) s)
    (fun a b => decide (b.created ≤ a.created))

/-- Model of `RoomManager.createRoom(...)`.  The generated room id and `Date.now()`
are passed as parameters (`roomId`, `now`); the code guarantees the id is
fresh by retrying `generateRoomId` against the live store. -/
def createRoom (s : Store) (hostId hostName walletAddress roomName : String)
    (maxPlayers shotsPerPlayer rewardAmount : Int) (roomId : String) (now : Int) :
    GameRoom × Store :=
  let room : GameRoom :=
    { id := roomId
      name := roomName
      hostId := hostId
      players := [{ id := hostId
                    name := hostName
                    walletAddress := walletAddress
                    score := 0
                    shotsRemaining := shotsPerPlayer
                    isConnected := true
                    isCurrentTurn := true }]
      maxPlayers := maxPlayers
      status := Status.waiting
      currentPlayerIndex := 0
      shotsPerPlayer := shotsPerPlayer
      rewardAmount := rewardAmount
      created := now
      lastActivity := now }
  (room, setRoom s room)

/-- Model of `RoomManager.addPlayerToRoom(roomId, player)`. -/
def addPlayerToRoom (s : Store) (roomId : String) (player : Player) (now : Int) :
    Bool × Store :=
  match findRoom s roomId with
  | none => (false, s)
  | some room =>
    if (room.players.length : Int) ≥ room.maxPlayers then (false, s)
    else if room.status ≠ Status.waiting then (false, s)
    else
      let players' :=
        match List.findIdx? (fun p => p.id = player.id) room.players with
        | some existingPlayerIndex =>
          -- Update existing player (reconnection)
          room.players.set existingPlayerIndex
            { player with shotsRemaining := room.shotsPerPlayer, isConnected := true }
        | none =>
          -- Add new player
          room.players ++ [{ player with score := 0
                                         shotsRemaining := room.shotsPerPlayer
                                         isConnected := true
                                         isCurrentTurn := false }]
      (true, setRoom s { room with players := players', lastActivity := now })

/-- Model of `RoomManager.startGame(roomId)`: no status check, only a 2-player minimum. -/
def startGame (s : Store) (roomId : String) (now : Int) : Bool × Store :=
  match findRoom s roomId with
  | none => (false, s)
  | some room =>
    if room.players.length < 2 then (false, s)
    else
      let players' := room.players.mapIdx (fun i p => { p with isCurrentTurn := i == 0 })
      (true, setRoom s { room with status := Status.playing
                                   currentPlayerIndex := 0
                                   players := players'
                                   lastActivity := now })

/-- The do/while search loop of `nextTurn`, with explicit fuel.  Results:
`none` when the TypeScript code would throw (indexing an empty player
array), `some none` for the "gone through all players twice" game-over
exit, and `some (some j)` when an eligible player is found at index `j`.
Fuel exhaustion returns `some none`; the fuel `2 * players.length + 2`
used by `nextTurn` is proved sufficient below, so this case is
unreachable there. -/
def nextTurnScan (players : List Player) : Nat → Nat → Nat → Option (Option Nat)
  | _, _, 0 => some none
  | idx, fullLoopCount, fuel + 1 =>
    let nextPlayerIndex := (idx + 1) % players.length
    -- If we've gone through all players, increment our loop counter
    let fullLoopCount' := if nextPlayerIndex = 0 then fullLoopCount + 1 else fullLoopCount
    -- If we've gone through all players twice, the game is over
    if fullLoopCount' > 1 then some none
    else
      match players[nextPlayerIndex]? with
      | none => none
      | some nextPlayer =>
        if nextPlayer.shotsRemaining ≤ 0 ∨ ¬nextPlayer.isConnected then
          nextTurnScan players nextPlayerIndex fullLoopCount' fuel
        else some (some nextPlayerIndex)

/-- Model of `RoomManager.nextTurn(roomId)`.  Here `none` models the exception thrown
when a playing room has an empty player list. -/
def nextTurn (s : Store) (roomId : String) (now : Int) : Option (Bool × Store) :=
  match findRoom s roomId with
  | none => some (false, s)
  | some room =>
    if room.status ≠ Status.playing then some (false, s)
    else
      match nextTurnScan room.players room.currentPlayerIndex 0
          (2 * room.players.length + 2) with
      | none => none
      | some none =>
        some (true, setRoom s { room with status := Status.completed, lastActivity := now })
      | some (some nextPlayerIndex) =>
        match room.players[nextPlayerIndex]? with
        | none => none
        | some nextPlayer =>
          let players' :=
            (room.players.map (fun p => { p with isCurrentTurn := false })).set
              nextPlayerIndex { nextPlayer with isCurrentTurn := true }
          -- Check if all shots have been used
          let allShotsUsed := players'.all (fun p => p.shotsRemaining ≤ 0 ∨ ¬p.isConnected)
          let status' := if allShotsUsed then Status.completed else room.status
          some (true, setRoom s { room with players := players'
                                            currentPlayerIndex := nextPlayerIndex
                                            status := status'
                                            lastActivity := now })

/-- Model of `RoomManager.updatePlayerScore(roomId, playerId, score)`.  The code
finds the player object by id and mutates it in place; this is modelled
as `findIdx?` followed by `set` at that index. -/
def updatePlayerScore (s : Store) (roomId playerId : String) (score : Int) (now : Int) :
    Bool × Store :=
  match findRoom s roomId with
  | none => (false, s)
  | some room =>
    match List.findIdx? (fun p => p.id = playerId) room.players with
    | none => (false, s)
    | some i =>
      match room.players[i]? with
      | none => (false, s)
      | some player =>
        if ¬player.isCurrentTurn then (false, s)
        else
          let players' := room.players.set i
            { player with score := player.score + score
                          shotsRemaining := player.shotsRemaining - 1 }
          (true, setRoom s { room with players := players', lastActivity := now })

/-- Model of `RoomManager.resetGame(roomId)`.  Here `none` models the exception from
`room.players[0].isCurrentTurn = true` on an empty player list. -/
def resetGame (s : Store) (roomId : String) (now : Int) : Option (Bool × Store) :=
  match findRoom s roomId with
  | none => some (false, s)
  | some room =>
    -- Reset all players
    let players₁ := room.players.map
      (fun p => { p with score := 0, shotsRemaining := room.shotsPerPlayer })
    match players₁ with
    | [] => none
    | p0 :: rest =>
      let players' :=
        ({ p0 with isCurrentTurn := true }) :: rest.map (fun p => { p with isCurrentTurn := false })
      some (true, setRoom s { room with players := players'
                                        status := Status.waiting
                                        currentPlayerIndex := 0
                                        lastActivity := now })

/-- Model of `RoomManager.updatePlayerInRoom(roomId, updatedPlayer)`: wholesale
replacement of the stored player by the caller-supplied one. -/
def updatePlayerInRoom (s : Store) (roomId : String) (updatedPlayer : Player) (now : Int) :
    Bool × Store :=
  match findRoom s roomId with
  | none => (false, s)
  | some room =>
    match List.findIdx? (fun p => p.id = updatedPlayer.id) room.players with
    | none => (false, s)
    | some playerIndex =>
      (true, setRoom s { room with players := room.players.set playerIndex updatedPlayer
                                   lastActivity := now })

/-- Model of `RoomManager.removePlayerFromRoom(roomId, playerId)`.  In the source
the fetched `room` is the very object held by the map, so the
`nextTurn` call in the playing branch observes the disconnect and its
updates are observed by the rest of the method; this is modelled by
writing the room back to the store before the `nextTurn` call and
re-reading it afterwards.  `none` models a thrown exception (only
reachable through `nextTurn` on an empty player list). -/
def removePlayerFromRoom (s : Store) (roomId playerId : String) (now : Int) :
    Option (Bool × Store) :=
  match findRoom s roomId with
  | none => some (false, s)
  | some room =>
    match List.findIdx? (fun p => p.id = playerId) room.players with
    | none => some (false, s)
    | some playerIndex =>
      -- If game is in progress, mark player as disconnected; otherwise remove them
      let afterMark : Option (GameRoom × Store) :=
        if room.status = Status.playing then
          match room.players[playerIndex]? with
          | none => none
          | some p =>
            let room₁ := { room with
              players := room.players.set playerIndex { p with isConnected := false } }
            let s₁ := setRoom s room₁
            -- If it was their turn, advance to the next player
            if p.isCurrentTurn then
              match nextTurn s₁ roomId now with
              | none => none
              | some (_, s₂) =>
                match findRoom s₂ roomId with
                | none => none
                | some room₂ => some (room₂, s₂)
            else some (room₁, s₁)
        else
          some ({ room with players := room.players.eraseIdx playerIndex }, s)
      match afterMark with
      | none => none
      | some (room', s') =>
        -- If no players left or all disconnected, remove the room
        if room'.players.length = 0 ∨ room'.players.all (fun p => ¬p.isConnected) then
          some (true, removeRoom s' roomId)
        else
          -- If the host left, assign a new host: first connected player
          let hostId' :=
            if playerId = room'.hostId ∧ room'.players.length > 0 then
              match room'.players.find? (fun p => p.isConnected) with
              | some player => player.id
              | none => room'.hostId
            else room'.hostId
          some (true, setRoom s' { room' with hostId := hostId', lastActivity := now })

/-! ### Specification-side definitions

These definitions follow the specification's words, for comparison with
the code-derived definitions above; they are not translations of the
source. -/

/-- Maximum score over a player list, folded with the same `-1` seed the
winner scan of `getWinner` starts from. -/
def maxScore (players : List Player) : Int :=
  players.foldl (fun m p => max m p.score) (-1)

/-- Modelled from the spec (claim C5's scan order): the first index, in
strict list order starting just after `currentPlayerIndex` and wrapping
circularly, whose player has `shotsRemaining > 0` and `isConnected`. -/
def specFirstEligible (players : List Player) (currentPlayerIndex : Nat) : Option Nat :=
  (List.range players.length).findSome? (fun k =>
    let j := (currentPlayerIndex + 1 + k) % players.length
    match players[j]? with
    | some p => if 0 < p.shotsRemaining ∧ p.isConnected then some j else none
    | none => none)

/-- Check performed by one iteration of the `nextTurn` loop at index `j`
(proof infrastructure for relating the loop to `specFirstEligible`). -/
def scanCheck (players : List Player) (j : Nat) : Option Nat :=
  match players[j]? with
  | some p => if p.shotsRemaining ≤ 0 ∨ ¬p.isConnected then none else some j
  | none => none

/-- Claim C3's store invariant: the per-room refill value and every shot
counter in the store are nonnegative. -/
def ShotsNonneg (s : Store) : Prop :=
  ∀ room ∈ s, 0 ≤ room.shotsPerPlayer ∧ ∀ p ∈ room.players, 0 ≤ p.shotsRemaining

/-- Claim C4's store invariant: every stored room has a nonempty player
list, and a `playing` room has exactly one player with the turn flag,
with `currentPlayerIndex` pointing at a flagged player. -/
def TurnInv (s : Store) : Prop :=
  ∀ room ∈ s, room.players ≠ [] ∧
    (room.status = Status.playing →
      room.players.countP (fun p => p.isCurrentTurn) = 1 ∧
      (room.players[room.currentPlayerIndex]?).map Player.isCurrentTurn = some true)

/-! ### Concrete fixtures for counterexamples, scenarios and witnesses -/

/-- Fixture helper building a player. -/
def mkPlayer (pid : String) (score shotsRemaining : Int) (isConnected isCurrentTurn : Bool) :
    Player :=
  { id := pid, name := pid, walletAddress := "", score := score,
    shotsRemaining := shotsRemaining, isConnected := isConnected,
    isCurrentTurn := isCurrentTurn }

/-- Fixture helper building a room. -/
def mkRoom (rid hostId : String) (players : List Player) (status : Status)
    (currentPlayerIndex : Nat) (shotsPerPlayer : Int) : GameRoom :=
  { id := rid, name := rid, hostId := hostId, players := players, maxPlayers := 4,
    status := status, currentPlayerIndex := currentPlayerIndex,
    shotsPerPlayer := shotsPerPlayer, rewardAmount := 0, created := 0, lastActivity := 0 }

/-- Completed room in which every player has score `0`. -/
def zeroScoreRoom : GameRoom :=
  mkRoom "Z" "A" [mkPlayer "A" 0 0 true false, mkPlayer "B" 0 0 true false]
    Status.completed 0 3

/-- Store holding only `zeroScoreRoom`. -/
def zeroScoreStore : Store := [zeroScoreRoom]

/-- Completed room with players A(30), B(30), C(10): the tie scenario. -/
def tieRoom : GameRoom :=
  mkRoom "T" "A"
    [mkPlayer "A" 30 0 true false, mkPlayer "B" 30 0 true false,
     mkPlayer "C" 10 0 true false]
    Status.completed 0 3

/-- Store holding only `tieRoom`. -/
def tieStore : Store := [tieRoom]

/-- Completed room whose `lastActivity` is the current instant. -/
def freshCompletedRoom : GameRoom :=
  mkRoom "F" "A" [mkPlayer "A" 5 0 true false] Status.completed 0 3

/-- Store holding only `freshCompletedRoom`. -/
def freshCompletedStore : Store := [freshCompletedRoom]

/-- Store after `createRoom` with `shotsPerPlayer = 1` (host H, room R). -/
def oneShotStore : Store :=
  (createRoom [] "H" "H" "" "room" 4 1 0 "R" 0).2

/-- Store after the host of `oneShotStore` records two scores in a row:
the second accepted update drives `shotsRemaining` to `-1`. -/
def overdrawnStore : Store :=
  (updatePlayerScore (updatePlayerScore oneShotStore "R" "H" 5 0).2 "R" "H" 5 0).2

/-- Waiting room R with host H and player P. -/
def twoPlayerWaiting : Store :=
  (addPlayerToRoom (createRoom [] "H" "H" "" "room" 4 3 0 "R" 0).2 "R"
    (mkPlayer "P" 0 0 true false) 0).2

/-- Playing room R with host H (current turn) and player P. -/
def twoPlayerPlaying : Store :=
  (startGame twoPlayerWaiting "R" 0).2

/-- Store after `updatePlayerInRoom` overwrites P with `isCurrentTurn = true`
while H still holds the turn: two flagged players in a playing room. -/
def doubleTurnStore : Store :=
  (updatePlayerInRoom twoPlayerPlaying "R" (mkPlayer "P" 0 3 true true) 0).2

/-- Waiting room R with players A, B, C and `shotsPerPlayer = 1`. -/
def threeWaiting : Store :=
  (addPlayerToRoom
    (addPlayerToRoom (createRoom [] "A" "A" "" "room" 4 1 0 "R" 0).2 "R"
      (mkPlayer "B" 0 0 true false) 0).2 "R"
    (mkPlayer "C" 0 0 true false) 0).2

/-- Playing room R with players A (current turn), B, C, one shot each. -/
def threePlaying : Store :=
  (startGame threeWaiting "R" 0).2

/-- Fixture helper: record a score for `pid` in room R, then advance the
turn, extracting the store from the coordinator results. -/
def scenarioStep (s : Store) (pid : String) (sc : Int) : Store :=
  ((nextTurn (updatePlayerScore s "R" pid sc 0).2 "R" 0).getD (false, [])).2

/-- Scenario store after A plays once and the turn advances. -/
def scenarioS1 : Store := scenarioStep threePlaying "A" 3

/-- Scenario store after B plays once and the turn advances. -/
def scenarioS2 : Store := scenarioStep scenarioS1 "B" 4

/-- Scenario store after C plays once and the third `nextTurn` call runs. -/
def scenarioS3 : Store := scenarioStep scenarioS2 "C" 2

/-- Literal value of the room stored in `threePlaying`. -/
def threePlayingRoom : GameRoom :=
  { id := "R", name := "room", hostId := "A",
    players := [mkPlayer "A" 0 1 true true, mkPlayer "B" 0 1 true false,
                mkPlayer "C" 0 1 true false],
    maxPlayers := 4, status := Status.playing, currentPlayerIndex := 0,
    shotsPerPlayer := 1, rewardAmount := 0, created := 0, lastActivity := 0 }

/-- Literal value of the room stored in `oneShotStore`. -/
def oneShotRoom : GameRoom :=
  { id := "R", name := "room", hostId := "H",
    players := [mkPlayer "H" 0 1 true true],
    maxPlayers := 4, status := Status.waiting, currentPlayerIndex := 0,
    shotsPerPlayer := 1, rewardAmount := 0, created := 0, lastActivity := 0 }

/-- Literal value of the room after the host of `oneShotStore` records one
score: the host is still flagged as current with no shots left. -/
def oneShotRoomAfter : GameRoom :=
  { id := "R", name := "room", hostId := "H",
    players := [mkPlayer "H" 5 0 true true],
    maxPlayers := 4, status := Status.waiting, currentPlayerIndex := 0,
    shotsPerPlayer := 1, rewardAmount := 0, created := 0, lastActivity := 0 }

/-- Literal value of the room stored in `scenarioS3`. -/
def scenarioRoom3 : GameRoom :=
  { id := "R", name := "room", hostId := "A",
    players := [mkPlayer "A" 3 0 true false, mkPlayer "B" 4 0 true false,
                mkPlayer "C" 2 0 true true],
    maxPlayers := 4, status := Status.completed, currentPlayerIndex := 2,
    shotsPerPlayer := 1, rewardAmount := 0, created := 0, lastActivity := 0 }

/-- Literal value of the room stored in `twoPlayerWaiting`. -/
def twoWaitingRoom : GameRoom :=
  { id := "R", name := "room", hostId := "H",
    players := [mkPlayer "H" 0 3 true true, mkPlayer "P" 0 3 true false],
    maxPlayers := 4, status := Status.waiting, currentPlayerIndex := 0,
    shotsPerPlayer := 3, rewardAmount := 0, created := 0, lastActivity := 0 }

/-! ### Helper lemmas about the store -/

lemma findRoom_mem {s : Store} {rid : String} {room : GameRoom}
    (h : findRoom s rid = some room) : room ∈ s ∧ room.id = rid := by
  refine ⟨List.mem_of_find?_eq_some h, ?_⟩
  have hp := List.find?_some h
  simpa using hp

lemma mem_setRoom {s : Store} {room r : GameRoom} (h : r ∈ setRoom s room) :
    r = room ∨ r ∈ s := by
  unfold setRoom at h
  split at h
  · rcases List.mem_map.mp h with ⟨x, hx, hfx⟩
    by_cases hxid : x.id = room.id
    · rw [if_pos hxid] at hfx
      exact Or.inl hfx.symm
    · rw [if_neg hxid] at hfx
      exact Or.inr (hfx ▸ hx)
  · rcases List.mem_append.mp h with h' | h'
    · exact Or.inr h'
    · exact Or.inl (by simpa using h')

lemma find?_map_replace {t : Store} {rid : String} {r' room : GameRoom}
    (hid : r'.id = rid)
    (h : List.find? (fun r => r.id = rid) t = some room) :
    List.find? (fun r => r.id = rid)
      (t.map (fun r => if r.id = r'.id then r' else r)) = some r' := by
  induction t with
  | nil => simp at h
  | cons a t ih =>
    by_cases ha : a.id = rid
    · have hfa : (if a.id = r'.id then r' else a) = r' := if_pos (by rw [ha, hid])
      simp only [List.map_cons, hfa, List.find?_cons]
      simp [hid]
    · have hfa : (if a.id = r'.id then r' else a) = a := if_neg (by rw [hid]; exact ha)
      simp only [List.find?_cons] at h
      simp only [List.map_cons, hfa, List.find?_cons]
      rw [show (decide (a.id = rid)) = false from by simpa using ha] at h ⊢
      exact ih h

lemma findRoom_setRoom {s : Store} {rid : String} {room r' : GameRoom}
    (h : findRoom s rid = some room) (hid : r'.id = rid) :
    findRoom (setRoom s r') rid = some r' := by
  obtain ⟨hm, hmid⟩ := findRoom_mem h
  unfold setRoom
  rw [if_pos ?_]
  · exact find?_map_replace hid h
  · exact List.any_eq_true.mpr ⟨room, hm, by simp [hmid, hid]⟩

lemma findRoom_removeRoom_self (s : Store) (rid : String) :
    findRoom (removeRoom s rid) rid = none := by
  unfold findRoom removeRoom
  rw [List.find?_eq_none]
  intro r hr
  have hf := (List.mem_filter.mp hr).2
  simpa using hf

/-! ### Helper lemmas about list searching -/

lemma findIdx?_ge {α : Type} (p : α → Bool) (l : List α) :
    ∀ {k i : Nat}, List.findIdx? p l k = some i → k ≤ i := by
  induction l with
  | nil => intro k i h; simp [List.findIdx?] at h
  | cons a t ih =>
    intro k i h
    rw [List.findIdx?_cons] at h
    split at h
    · exact (Option.some_inj.mp h) ▸ le_refl _
    · exact Nat.le_of_succ_le (ih h)

lemma findIdx?_bind_getElem {α : Type} (p : α → Bool) (l : List α) :
    ∀ (k : Nat), (List.findIdx? p l k).bind (fun i => l[i - k]?) = List.find? p l := by
  induction l with
  | nil => intro k; simp [List.findIdx?]
  | cons a t ih =>
    intro k
    rw [List.findIdx?_cons, List.find?_cons]
    by_cases hpa : p a = true
    · simp [hpa]
    · rw [if_neg hpa]
      rw [show (p a) = false from by simpa using hpa]
      cases hfi : List.findIdx? p t (k + 1) with
      | none =>
        have := ih (k + 1)
        rw [hfi] at this
        simpa using this.symm ▸ (by simp : (Option.none.bind fun i => (a :: t)[i - k]?) = none)
      | some i =>
        have hk : k + 1 ≤ i := findIdx?_ge p t hfi
        have := ih (k + 1)
        rw [hfi] at this
        simp only [Option.some_bind] at this ⊢
        rw [← this]
        have hik : i - k = (i - (k + 1)) + 1 := by omega
        rw [hik, List.getElem?_cons_succ]

lemma find?_of_findIdx?_getElem {α : Type} {p : α → Bool} {l : List α} {i : Nat} {a : α}
    (hfi : List.findIdx? p l = some i) (hget : l[i]? = some a) :
    List.find? p l = some a := by
  have h := findIdx?_bind_getElem p l 0
  rw [hfi] at h
  simpa [hget] using h.symm

lemma findIdx?_isSome_getElem {α : Type} {p : α → Bool} {l : List α} {i : Nat}
    (hfi : List.findIdx? p l = some i) : ∃ a, l[i]? = some a ∧ p a = true := by
  have h := findIdx?_bind_getElem p l 0
  rw [hfi] at h
  simp only [Option.some_bind, Nat.sub_zero] at h
  cases hg : l[i]? with
  | none => rw [hg] at h; cases hf : List.find? p l with
    | none =>
      exfalso
      rw [hf] at h
      rw [List.find?_eq_none] at hf
      have : ∀ x ∈ l, p x = false := List.findIdx?_eq_none_iff.mp ?_
      · rw [List.findIdx?_eq_none_iff.mpr this] at hfi; cases hfi
      · rw [List.findIdx?_eq_none_iff]
        intro x hx
        simpa using hf x hx
    | some b => rw [hf] at h; cases h
  | some a =>
    refine ⟨a, rfl, ?_⟩
    rw [hg] at h
    exact List.find?_some h.symm

lemma find?_eq_none_of_findIdx?_eq_none {α : Type} {p : α → Bool} {l : List α}
    (hfi : List.findIdx? p l = none) : List.find? p l = none := by
  rw [List.find?_eq_none]
  intro x hx
  have := List.findIdx?_eq_none_iff.mp hfi x hx
  simp [this]

lemma set_getElem_self {α : Type} {l : List α} :
    ∀ {i : Nat} {a : α}, l[i]? = some a → l.set i a = l := by
  induction l with
  | nil => intro i a h; simp at h
  | cons x t ih =>
    intro i a h
    cases i with
    | zero => simp at h; simp [h]
    | succ j =>
      rw [List.getElem?_cons_succ] at h
      simp [List.set_cons_succ, ih h]

lemma findIdx?_set_of_pred {α : Type} (pr : α → Bool) (l : List α) :
    ∀ (k i : Nat) (b : α), List.findIdx? pr l k = some i → pr b = true →
      List.findIdx? pr (l.set (i - k) b) k = some i := by
  induction l with
  | nil => intro k i b h _; simp [List.findIdx?] at h
  | cons a t ih =>
    intro k i b h hb
    rw [List.findIdx?_cons] at h
    split at h
    · have hik : i = k := (Option.some_inj.mp h).symm
      subst hik
      simp only [Nat.sub_self, List.set_cons_zero]
      rw [List.findIdx?_cons, if_pos hb]
    · have hk : k + 1 ≤ i := findIdx?_ge pr t h
      have hik : i - k = (i - (k + 1)) + 1 := by omega
      rw [hik, List.set_cons_succ, List.findIdx?_cons]
      split
      · next hpa => exact absurd hpa (by assumption)
      · exact ih (k + 1) i b h hb

/-! ### Characterization of the nextTurn scan loop -/

lemma nextTurnScan_succ (players : List Player) (idx flc f : Nat) :
    nextTurnScan players idx flc (f + 1) =
      (if (if (idx + 1) % players.length = 0 then flc + 1 else flc) > 1 then some none
       else match players[(idx + 1) % players.length]? with
         | none => none
         | some p =>
           if p.shotsRemaining ≤ 0 ∨ ¬p.isConnected then
             nextTurnScan players ((idx + 1) % players.length)
               (if (idx + 1) % players.length = 0 then flc + 1 else flc) f
           else some (some ((idx + 1) % players.length))) := rfl

lemma mod_succ_of_ne (idx n : Nat) (hn : 0 < n) (hz : (idx + 1) % n ≠ 0) :
    (idx + 1) % n = idx % n + 1 := by
  have h1 : (idx % n + 1) % n = (idx + 1) % n := Nat.mod_add_mod idx n 1
  have h2 : idx % n < n := Nat.mod_lt _ hn
  rcases Nat.lt_or_ge (idx % n + 1) n with h | h
  · rw [← h1, Nat.mod_eq_of_lt h]
  · have h3 : idx % n + 1 = n := by omega
    rw [← h1, h3, Nat.mod_self] at hz
    exact absurd rfl hz

lemma mod_succ_of_eq (idx n : Nat) (hn : 0 < n) (hz : (idx + 1) % n = 0) :
    idx % n = n - 1 := by
  have h1 : (idx % n + 1) % n = (idx + 1) % n := Nat.mod_add_mod idx n 1
  have h2 : idx % n < n := Nat.mod_lt _ hn
  rw [hz] at h1
  rcases Nat.lt_or_ge (idx % n + 1) n with h | h
  · rw [Nat.mod_eq_of_lt h] at h1
    omega
  · omega

lemma nextTurnScan_eq_findSome (players : List Player) (hn : 0 < players.length) :
    ∀ (m idx flc fuel : Nat), flc ≤ 1 →
      (if flc = 0 then players.length else 0) +
        (players.length - idx % players.length) = m + 1 →
      m + 1 ≤ fuel →
      nextTurnScan players idx flc fuel =
        some ((List.range m).findSome? (fun t =>
          scanCheck players ((idx + 1 + t) % players.length))) := by
  intro m
  induction m with
  | zero =>
    intro idx flc fuel hflc hB hfuel
    have hmlt : idx % players.length < players.length := Nat.mod_lt _ hn
    have hflc1 : flc = 1 := by
      rcases Nat.eq_zero_or_pos flc with h | h
      · subst h
        rw [if_pos rfl] at hB
        omega
      · omega
    subst hflc1
    rw [if_neg (by omega)] at hB
    cases fuel with
    | zero => omega
    | succ f =>
      have hz : (idx + 1) % players.length = 0 := by
        have h1 : (idx % players.length + 1) % players.length =
            (idx + 1) % players.length := Nat.mod_add_mod idx players.length 1
        have h2 : idx % players.length = players.length - 1 := by omega
        rw [← h1, h2, show players.length - 1 + 1 = players.length from by omega,
          Nat.mod_self]
      rw [nextTurnScan_succ, if_pos (by rw [if_pos hz]; omega)]
      simp
  | succ m ih =>
    intro idx flc fuel hflc hB hfuel
    have hmlt : idx % players.length < players.length := Nat.mod_lt _ hn
    cases fuel with
    | zero => omega
    | succ f =>
      have hnpi : (idx + 1) % players.length < players.length := Nat.mod_lt _ hn
      have hget : players[(idx + 1) % players.length]? =
          some (players[(idx + 1) % players.length]) :=
        List.getElem?_eq_getElem hnpi
      have hrange : (List.range (m + 1)).findSome? (fun t =>
            scanCheck players ((idx + 1 + t) % players.length)) =
          (match scanCheck players ((idx + 1) % players.length) with
           | some b => some b
           | none => (List.range m).findSome? (fun t =>
               scanCheck players (((idx + 1) % players.length + 1 + t) % players.length))) := by
        rw [List.range_succ_eq_map, List.findSome?_cons]
        rw [show (idx + 1 + 0) % players.length = (idx + 1) % players.length from by norm_num]
        cases hc : scanCheck players ((idx + 1) % players.length) with
        | some b => rfl
        | none =>
          rw [List.findSome?_map]
          have hfun : ((fun t => scanCheck players ((idx + 1 + t) % players.length)) ∘
              Nat.succ) = (fun t =>
                scanCheck players (((idx + 1) % players.length + 1 + t) % players.length)) := by
            funext t
            simp only [Function.comp_apply, Nat.succ_eq_add_one]
            congr 1
            rw [show (idx + 1) % players.length + 1 + t =
              (idx + 1) % players.length + (1 + t) from by omega, Nat.mod_add_mod]
            congr 1
            omega
          rw [hfun]
      rw [nextTurnScan_succ]
      by_cases hz : (idx + 1) % players.length = 0
      · have hidxmod : idx % players.length = players.length - 1 :=
          mod_succ_of_eq idx players.length hn hz
        have hflc0 : flc = 0 := by
          rcases Nat.eq_zero_or_pos flc with h | h
          · exact h
          · have hflc1 : flc = 1 := by omega
            rw [hflc1, if_neg (by omega)] at hB
            omega
        subst hflc0
        rw [if_pos hz, if_neg (by omega)]
        rw [if_pos rfl] at hB
        simp only [hget]
        by_cases helig : (players[(idx + 1) % players.length]).shotsRemaining ≤ 0 ∨
            ¬(players[(idx + 1) % players.length]).isConnected
        · rw [if_pos helig]
          have hcheck : scanCheck players ((idx + 1) % players.length) = none := by
            unfold scanCheck
            simp only [hget]
            rw [if_pos helig]
          have hB' : (if (1 : Nat) = 0 then players.length else 0) +
              (players.length - ((idx + 1) % players.length) % players.length) = m + 1 := by
            rw [if_neg (by omega), hz, Nat.zero_mod]
            omega
          rw [ih ((idx + 1) % players.length) 1 f (by omega) hB' (by omega)]
          rw [hrange, hcheck]
        · rw [if_neg helig]
          have hcheck : scanCheck players ((idx + 1) % players.length) =
              some ((idx + 1) % players.length) := by
            unfold scanCheck
            simp only [hget]
            rw [if_neg helig]
          rw [hrange, hcheck]
      · have hmod : (idx + 1) % players.length = idx % players.length + 1 :=
          mod_succ_of_ne idx players.length hn hz
        rw [if_neg hz, if_neg (by omega : ¬flc > 1)]
        simp only [hget]
        by_cases helig : (players[(idx + 1) % players.length]).shotsRemaining ≤ 0 ∨
            ¬(players[(idx + 1) % players.length]).isConnected
        · rw [if_pos helig]
          have hcheck : scanCheck players ((idx + 1) % players.length) = none := by
            unfold scanCheck
            simp only [hget]
            rw [if_pos helig]
          have hB' : (if flc = 0 then players.length else 0) +
              (players.length - ((idx + 1) % players.length) % players.length) = m + 1 := by
            rw [Nat.mod_eq_of_lt hnpi, hmod]
            by_cases hf : flc = 0
            · rw [if_pos hf]
              rw [if_pos hf] at hB
              omega
            · rw [if_neg hf]
              rw [if_neg hf] at hB
              omega
          rw [ih ((idx + 1) % players.length) flc f hflc hB' (by omega)]
          rw [hrange, hcheck]
        · rw [if_neg helig]
          have hcheck : scanCheck players ((idx + 1) % players.length) =
              some ((idx + 1) % players.length) := by
            unfold scanCheck
            simp only [hget]
            rw [if_neg helig]
          rw [hrange, hcheck]

lemma findSome?_range_period {β : Type} (g : Nat → Option β) (n : Nat) (hn : 0 < n)
    (hper : ∀ t, g (t + n) = g t) :
    ∀ m, n ≤ m → (List.range m).findSome? g = (List.range n).findSome? g := by
  have hnone : (List.range n).findSome? g = none → ∀ t, g t = none := by
    intro h t
    induction t using Nat.strong_induction_on with
    | _ t ihh =>
      rcases Nat.lt_or_ge t n with hlt | hge
      · exact List.findSome?_eq_none_iff.mp h t (List.mem_range.mpr hlt)
      · rw [show t = (t - n) + n from by omega, hper]
        exact ihh (t - n) (by omega)
  intro m
  induction m with
  | zero => intro hm; exact absurd hm (by omega)
  | succ m ihm =>
    intro hm
    rcases Nat.lt_or_ge m n with hlt | hge
    · rw [show n = m + 1 from by omega]
    · rw [List.range_succ, List.findSome?_append, ihm hge]
      cases hr : (List.range n).findSome? g with
      | some b => rfl
      | none =>
        have hgm : g m = none := hnone hr m
        simp [hgm]

lemma nextTurnScan_spec (players : List Player) (idx : Nat) (hn : 0 < players.length) :
    nextTurnScan players idx 0 (2 * players.length + 2) =
      some (specFirstEligible players idx) := by
  have hmlt : idx % players.length < players.length := Nat.mod_lt _ hn
  have hB : (if (0 : Nat) = 0 then players.length else 0) +
      (players.length - idx % players.length) =
      (players.length + (players.length - idx % players.length) - 1) + 1 := by
    rw [if_pos rfl]
    omega
  rw [nextTurnScan_eq_findSome players hn
    (players.length + (players.length - idx % players.length) - 1) idx 0
    (2 * players.length + 2) (by omega) hB (by omega)]
  congr 1
  have hper : ∀ t, (fun t => scanCheck players ((idx + 1 + t) % players.length)) (t + players.length) =
      (fun t => scanCheck players ((idx + 1 + t) % players.length)) t := by
    intro t
    simp only []
    congr 1
    rw [show idx + 1 + (t + players.length) = (idx + 1 + t) + players.length from by omega,
      Nat.add_mod_right]
  rw [findSome?_range_period _ players.length hn hper
    (players.length + (players.length - idx % players.length) - 1) (by omega)]
  unfold specFirstEligible
  congr 1
  funext k
  unfold scanCheck
  cases hpk : players[(idx + 1 + k) % players.length]? with
  | none => simp only [hpk]
  | some p =>
    simp only [hpk]
    by_cases he : 0 < p.shotsRemaining ∧ p.isConnected = true
    · have hnc : ¬(p.shotsRemaining ≤ 0 ∨ ¬p.isConnected = true) := by
        push_neg
        exact ⟨he.1, he.2⟩
      rw [if_neg hnc, if_pos he]
    · have hc : p.shotsRemaining ≤ 0 ∨ ¬p.isConnected = true := by
        rcases not_and_or.mp he with h | h
        · exact Or.inl (by omega)
        · exact Or.inr h
      rw [if_pos hc, if_neg he]

lemma specFirstEligible_some {players : List Player} {c j : Nat}
    (h : specFirstEligible players c = some j) :
    ∃ p, players[j]? = some p ∧ 0 < p.shotsRemaining ∧ p.isConnected = true := by
  unfold specFirstEligible at h
  obtain ⟨k, _, hk⟩ := List.exists_of_findSome?_eq_some h
  simp only [] at hk
  cases hpk : players[(c + 1 + k) % players.length]? with
  | none => simp only [hpk] at hk; cases hk
  | some p =>
    simp only [hpk] at hk
    by_cases he : 0 < p.shotsRemaining ∧ p.isConnected = true
    · rw [if_pos he] at hk
      have hj := Option.some_inj.mp hk
      subst hj
      exact ⟨p, hpk, he.1, he.2⟩
    · rw [if_neg he] at hk
      cases hk

lemma countP_set_flag (players : List Player) (j : Nat) (b : Player)
    (hj : j < players.length) (hb : b.isCurrentTurn = true) :
    ((players.map (fun p => { p with isCurrentTurn := false })).set j b).countP
      (fun q => q.isCurrentTurn) = 1 := by
  have hlen : j < (players.map (fun p => { p with isCurrentTurn := false })).length := by
    simpa using hj
  rw [List.countP_set _ _ _ _ hlen]
  have hzero : (players.map (fun p => { p with isCurrentTurn := false })).countP
      (fun q => q.isCurrentTurn) = 0 := by
    rw [List.countP_eq_zero]
    intro a ha
    rcases List.mem_map.mp ha with ⟨x, _, hx⟩
    subst hx
    simp
  rw [hzero]
  simp [hb]

/-- Claim C5: `nextTurn` fails when the room is unknown or not `playing`;
otherwise it looks for the first player, in strict list order starting
just after `currentPlayerIndex` and wrapping circularly, with
`shotsRemaining > 0` and `isConnected`; when no such player exists (two
full traversals find nobody) the room's status is set to `completed`,
and otherwise the found player becomes the sole turn-flag holder and
`currentPlayerIndex` moves to them.  In particular, in a 3-player room
with one shot each, after every player records a score the third
`nextTurn` call completes the game. -/
theorem C5_advanceTurn (s : Store) (rid : String) (now : Int) :
    (findRoom s rid = none → nextTurn s rid now = some (false, s)) ∧
    (∀ room, findRoom s rid = some room → room.status ≠ Status.playing →
      nextTurn s rid now = some (false, s)) ∧
    (∀ room, findRoom s rid = some room → room.status = Status.playing →
      room.players ≠ [] →
      (specFirstEligible room.players room.currentPlayerIndex = none →
        nextTurn s rid now =
          some (true, setRoom s { room with status := Status.completed,
                                            lastActivity := now })) ∧
      (∀ j, specFirstEligible room.players room.currentPlayerIndex = some j →
        ∃ p, room.players[j]? = some p ∧ 0 < p.shotsRemaining ∧ p.isConnected = true ∧
          ∃ room', nextTurn s rid now = some (true, setRoom s room') ∧
            room'.currentPlayerIndex = j ∧
            room'.players.countP (fun q => q.isCurrentTurn) = 1 ∧
            room'.players[j]? = some { p with isCurrentTurn := true } ∧
            room'.players.map (fun q => (q.id, q.score, q.shotsRemaining)) =
              room.players.map (fun q => (q.id, q.score, q.shotsRemaining)))) ∧
    (nextTurn (updatePlayerScore threePlaying "R" "A" 3 0).2 "R" 0 = some (true, scenarioS1) ∧
     nextTurn (updatePlayerScore scenarioS1 "R" "B" 4 0).2 "R" 0 = some (true, scenarioS2) ∧
     nextTurn (updatePlayerScore scenarioS2 "R" "C" 2 0).2 "R" 0 = some (true, scenarioS3) ∧
     (findRoom scenarioS2 "R").map GameRoom.status = some Status.playing ∧
     (findRoom scenarioS3 "R").map GameRoom.status = some Status.completed) := by
  refine ⟨?_, ?_, ?_, by decide, by decide, by decide, by decide, by decide⟩
  · intro h
    simp only [nextTurn, h]
  · intro room hroom hst
    simp only [nextTurn, hroom]
    rw [if_pos hst]
  · intro room hroom hst hne
    have hn : 0 < room.players.length := List.length_pos.mpr hne
    constructor
    · intro hnone
      simp only [nextTurn, hroom]
      rw [if_neg (by simp [hst])]
      rw [nextTurnScan_spec room.players room.currentPlayerIndex hn, hnone]
    · intro j hsome
      obtain ⟨p, hget, hs, hc⟩ := specFirstEligible_some hsome
      have hjlt : j < room.players.length := by
        rcases List.getElem?_eq_some.mp hget with ⟨h, _⟩
        exact h
      refine ⟨p, hget, hs, hc, ?_⟩
      simp only [nextTurn, hroom]
      rw [if_neg (by simp [hst])]
      rw [nextTurnScan_spec room.players room.currentPlayerIndex hn, hsome]
      simp only [hget]
      refine ⟨_, rfl, rfl, ?_, ?_, ?_⟩
      · exact countP_set_flag room.players j _ hjlt rfl
      · exact List.getElem?_set_self (by simpa using hjlt)
      · show ((room.players.map (fun p => { p with isCurrentTurn := false })).set j
            { p with isCurrentTurn := true }).map
              (fun q => (q.id, q.score, q.shotsRemaining)) =
          room.players.map (fun q => (q.id, q.score, q.shotsRemaining))
        rw [List.map_set, List.map_map]
        have hcomp : ((fun q : Player => (q.id, q.score, q.shotsRemaining)) ∘
            (fun p => { p with isCurrentTurn := false })) =
            (fun q : Player => (q.id, q.score, q.shotsRemaining)) := by
          funext q
          rfl
        rw [hcomp]
        apply set_getElem_self
        rw [List.getElem?_map, hget]
        rfl

/-- Witness for claim C5: in the playing three-player room the scan finds
player B (index 1) right after the current index 0. -/
theorem C5_witness :
    ∃ p, threePlayingRoom.players[1]? = some p ∧ 0 < p.shotsRemaining ∧
      p.isConnected = true ∧
      ∃ room', nextTurn threePlaying "R" 0 = some (true, setRoom threePlaying room') ∧
        room'.currentPlayerIndex = 1 ∧
        room'.players.countP (fun q => q.isCurrentTurn) = 1 ∧
        room'.players[1]? = some { (mkPlayer "B" 0 1 true false) with isCurrentTurn := true } ∧
        room'.players.map (fun q => (q.id, q.score, q.shotsRemaining)) =
          threePlayingRoom.players.map (fun q => (q.id, q.score, q.shotsRemaining)) := by
  have h := ((C5_advanceTurn threePlaying "R" 0).2.2.1 threePlayingRoom
    (by decide) rfl (by decide)).2 1 (by decide)
  obtain ⟨p, hget, hs, hc, hrest⟩ := h
  have hp : p = mkPlayer "B" 0 1 true false := by
    have : threePlayingRoom.players[1]? = some (mkPlayer "B" 0 1 true false) := by decide
    rw [this] at hget
    exact (Option.some_inj.mp hget).symm
  subst hp
  exact ⟨_, hget, hs, hc, hrest⟩

/-- Claim C6: whenever `updatePlayerScore` succeeds, the named player's
score increases by exactly the submitted score and their `shotsRemaining`
decreases by exactly 1; every other player is unchanged, and the turn is
not advanced (`currentPlayerIndex` and all `isCurrentTurn` flags are
unchanged), as is the room status. -/
theorem C6_recordScore_frame (s : Store) (rid pid : String) (sc now : Int)
    (room : GameRoom) (i : Nat) (p : Player)
    (hroom : findRoom s rid = some room)
    (hidx : List.findIdx? (fun q => q.id = pid) room.players = some i)
    (hget : room.players[i]? = some p)
    (hcur : p.isCurrentTurn = true) :
    (updatePlayerScore s rid pid sc now).1 = true ∧
    ∃ room', findRoom (updatePlayerScore s rid pid sc now).2 rid = some room' ∧
      room'.players[i]? = some { p with score := p.score + sc,
                                        shotsRemaining := p.shotsRemaining - 1 } ∧
      (∀ j, j ≠ i → room'.players[j]? = room.players[j]?) ∧
      room'.currentPlayerIndex = room.currentPlayerIndex ∧
      room'.players.map Player.isCurrentTurn = room.players.map Player.isCurrentTurn ∧
      room'.status = room.status := by
  have hlt : i < room.players.length := by
    rcases List.getElem?_eq_some.mp hget with ⟨h, _⟩
    exact h
  simp only [updatePlayerScore, hroom, hidx, hget]
  rw [if_neg (by simp [hcur])]
  refine ⟨rfl, ?_⟩
  refine ⟨_, findRoom_setRoom hroom (findRoom_mem hroom).2, ?_, ?_, rfl, ?_, rfl⟩
  · simpa using List.getElem?_set_self (l := room.players) (i := i) hlt
  · intro j hj
    simpa using List.getElem?_set_ne (l := room.players) (Ne.symm hj)
  · show (room.players.set i _).map Player.isCurrentTurn = _
    rw [List.map_set]
    apply set_getElem_self
    rw [List.getElem?_map, hget]
    simp [hcur]

/-- Witness for claim C6 at a concrete playing room. -/
theorem C6_witness : (updatePlayerScore threePlaying "R" "A" 3 0).1 = true :=
  (C6_recordScore_frame threePlaying "R" "A" 3 0 threePlayingRoom 0
    (mkPlayer "A" 0 1 true true) (by decide) (by decide) (by decide) (by decide)).1

/-- Claim C7: `updatePlayerScore` called for an unknown room, an unknown
player, or a player whose `isCurrentTurn` flag is false returns `false`
and leaves the entire store (including `lastActivity`) unchanged. -/
theorem C7_recordScore_failure_frame (s : Store) (rid pid : String) (sc now : Int) :
    (findRoom s rid = none → updatePlayerScore s rid pid sc now = (false, s)) ∧
    (∀ room, findRoom s rid = some room →
      List.find? (fun q => q.id = pid) room.players = none →
      updatePlayerScore s rid pid sc now = (false, s)) ∧
    (∀ room p, findRoom s rid = some room →
      List.find? (fun q => q.id = pid) room.players = some p →
      p.isCurrentTurn = false →
      updatePlayerScore s rid pid sc now = (false, s)) := by
  refine ⟨?_, ?_, ?_⟩
  · intro h
    simp only [updatePlayerScore, h]
  · intro room hroom hfind
    cases hfi : List.findIdx? (fun q => q.id = pid) room.players with
    | none => simp only [updatePlayerScore, hroom, hfi]
    | some i =>
      exfalso
      obtain ⟨a, hga, _⟩ := findIdx?_isSome_getElem hfi
      rw [find?_of_findIdx?_getElem hfi hga] at hfind
      cases hfind
  · intro room p hroom hfind hcur
    cases hfi : List.findIdx? (fun q => q.id = pid) room.players with
    | none =>
      rw [find?_eq_none_of_findIdx?_eq_none hfi] at hfind
      cases hfind
    | some i =>
      obtain ⟨a, hga, _⟩ := findIdx?_isSome_getElem hfi
      have hap : a = p := by
        have := find?_of_findIdx?_getElem hfi hga
        rw [this] at hfind
        exact Option.some_inj.mp hfind
      subst hap
      simp only [updatePlayerScore, hroom, hfi, hga]
      rw [if_pos (by simp [hcur])]

/-- Witness for claim C7: a non-current player's submission is rejected
without touching the store. -/
theorem C7_witness : updatePlayerScore threePlaying "R" "B" 4 0 = (false, threePlaying) :=
  (C7_recordScore_failure_frame threePlaying "R" "B" 4 0).2.2 threePlayingRoom
    (mkPlayer "B" 0 1 true false) (by decide) (by decide) (by decide)

/-- Claim C10 (implicit): `updatePlayerScore` has no room-status
precondition.  Whenever the named player exists and holds the turn flag,
the call succeeds — whatever the status (`waiting`, `playing` or
`completed`) — the status is unchanged, and afterwards the same player is
still found at the same position with the turn flag still set, so the
call can be repeated without limit. -/
theorem C10_recordScore_any_status (s : Store) (rid pid : String) (sc now : Int)
    (room : GameRoom) (i : Nat) (p : Player)
    (hroom : findRoom s rid = some room)
    (hidx : List.findIdx? (fun q => q.id = pid) room.players = some i)
    (hget : room.players[i]? = some p)
    (hcur : p.isCurrentTurn = true) :
    (updatePlayerScore s rid pid sc now).1 = true ∧
    ∃ room', findRoom (updatePlayerScore s rid pid sc now).2 rid = some room' ∧
      room'.status = room.status ∧
      List.findIdx? (fun q => q.id = pid) room'.players = some i ∧
      room'.players[i]? = some { p with score := p.score + sc,
                                        shotsRemaining := p.shotsRemaining - 1 } ∧
      ({ p with score := p.score + sc,
                shotsRemaining := p.shotsRemaining - 1 } : Player).isCurrentTurn = true := by
  have hlt : i < room.players.length := by
    rcases List.getElem?_eq_some.mp hget with ⟨h, _⟩
    exact h
  have hpid : p.id = pid := by
    obtain ⟨a, hga, hpa⟩ := findIdx?_isSome_getElem hidx
    rw [hget] at hga
    cases hga
    simpa using hpa
  simp only [updatePlayerScore, hroom, hidx, hget]
  rw [if_neg (by simp [hcur])]
  refine ⟨rfl, ?_⟩
  refine ⟨_, findRoom_setRoom hroom (findRoom_mem hroom).2, rfl, ?_, ?_, by simpa⟩
  · show List.findIdx? _ (room.players.set i _) = some i
    have := findIdx?_set_of_pred (fun q => decide (q.id = pid)) room.players 0 i
      { p with score := p.score + sc, shotsRemaining := p.shotsRemaining - 1 }
      (by simpa using hidx) (by simpa using hpid)
    simpa using this
  · simpa using List.getElem?_set_self (l := room.players) (i := i) hlt

/-- Witness for claim C10: the host scores in a `waiting` room right
after `createRoom`, then scores again with no shots left. -/
theorem C10_witness :
    (updatePlayerScore oneShotStore "R" "H" 5 0).1 = true ∧
    (updatePlayerScore (updatePlayerScore oneShotStore "R" "H" 5 0).2 "R" "H" 5 0).1 = true := by
  constructor
  · exact (C10_recordScore_any_status oneShotStore "R" "H" 5 0 oneShotRoom 0
      (mkPlayer "H" 0 1 true true) (by decide) (by decide) (by decide) (by decide)).1
  · exact (C10_recordScore_any_status _ "R" "H" 5 0 oneShotRoomAfter 0
      (mkPlayer "H" 5 0 true true) (by decide) (by decide) (by decide) (by decide)).1

/-- Claim C9: `resetGame` on an existing room (with its invariably
nonempty player list) zeroes every score, restores every shot counter to
`shotsPerPlayer`, sets the status to `waiting` and the index to 0, and
flags exactly the player at index 0 as current. -/
theorem C9_resetGame_roundtrip (s : Store) (rid : String) (now : Int) (room : GameRoom)
    (hroom : findRoom s rid = some room) (hne : room.players ≠ []) :
    ∃ s', resetGame s rid now = some (true, s') ∧
      ∃ room', findRoom s' rid = some room' ∧
        room'.status = Status.waiting ∧
        room'.currentPlayerIndex = 0 ∧
        room'.players.length = room.players.length ∧
        (∀ q ∈ room'.players, q.score = 0 ∧ q.shotsRemaining = room.shotsPerPlayer) ∧
        (∀ j q, room'.players[j]? = some q → (q.isCurrentTurn = true ↔ j = 0)) := by
  obtain ⟨p0, rest, hps⟩ := List.exists_cons_of_ne_nil hne
  simp only [resetGame, hroom, hps, List.map_cons]
  refine ⟨_, rfl, _, findRoom_setRoom hroom (findRoom_mem hroom).2, rfl, rfl, ?_, ?_, ?_⟩
  · simp [hps]
  · intro q hq
    rcases List.mem_cons.mp hq with h | h
    · subst h; exact ⟨rfl, rfl⟩
    · rcases List.mem_map.mp h with ⟨x, hx, hxq⟩
      rcases List.mem_map.mp hx with ⟨y, _, hyx⟩
      subst hxq
      subst hyx
      exact ⟨rfl, rfl⟩
  · intro j q hq
    cases j with
    | zero =>
      rw [List.getElem?_cons_zero] at hq
      cases hq
      simp
    | succ k =>
      rw [List.getElem?_cons_succ, List.getElem?_map] at hq
      rcases Option.map_eq_some'.mp hq with ⟨x, _, hxq⟩
      subst hxq
      simp

/-- Witness for claim C9: resetting the completed scenario room. -/
theorem C9_witness :
    ∃ s', resetGame scenarioS3 "R" 0 = some (true, s') ∧
      ∃ room', findRoom s' "R" = some room' ∧
        room'.status = Status.waiting ∧
        room'.currentPlayerIndex = 0 ∧
        room'.players.length = scenarioRoom3.players.length ∧
        (∀ q ∈ room'.players, q.score = 0 ∧ q.shotsRemaining = scenarioRoom3.shotsPerPlayer) ∧
        (∀ j q, room'.players[j]? = some q → (q.isCurrentTurn = true ↔ j = 0)) :=
  C9_resetGame_roundtrip scenarioS3 "R" 0 scenarioRoom3 (by decide) (by decide)

/-- Claim C8: removing a player from a room whose status is not
`playing` splices the player out; afterwards the room is deleted exactly
when no player remains or all remaining players are disconnected, and
otherwise, when the departing player was the host, the first remaining
connected player becomes the host. -/
theorem C8_removePlayer_nonplaying (s : Store) (rid pid : String) (now : Int)
    (room : GameRoom) (i : Nat)
    (hroom : findRoom s rid = some room)
    (hst : room.status ≠ Status.playing)
    (hidx : List.findIdx? (fun q => q.id = pid) room.players = some i) :
    ∃ out, removePlayerFromRoom s rid pid now = some out ∧ out.1 = true ∧
      (((room.players.eraseIdx i).length = 0 ∨
          (room.players.eraseIdx i).all (fun p => ¬p.isConnected)) →
        findRoom out.2 rid = none) ∧
      (¬((room.players.eraseIdx i).length = 0 ∨
          (room.players.eraseIdx i).all (fun p => ¬p.isConnected)) →
        ∃ room', findRoom out.2 rid = some room' ∧
          room'.players = room.players.eraseIdx i ∧
          (pid = room.hostId →
            ∃ q, (room.players.eraseIdx i).find? (fun p => p.isConnected) = some q ∧
              room'.hostId = q.id) ∧
          (pid ≠ room.hostId → room'.hostId = room.hostId)) := by
  simp only [removePlayerFromRoom, hroom, hidx]
  rw [if_neg hst]
  dsimp only
  by_cases hdel : (room.players.eraseIdx i).length = 0 ∨
      (room.players.eraseIdx i).all (fun p => ¬p.isConnected)
  · rw [if_pos hdel]
    exact ⟨_, rfl, rfl, fun _ => findRoom_removeRoom_self s rid,
      fun hc => absurd hdel hc⟩
  · rw [if_neg hdel]
    refine ⟨_, rfl, rfl, fun hc => absurd hc hdel, fun _ => ?_⟩
    have hlen : (room.players.eraseIdx i).length > 0 := by
      rcases Nat.eq_zero_or_pos (room.players.eraseIdx i).length with h | h
      · exact absurd (Or.inl h) hdel
      · exact h
    by_cases hhost : pid = room.hostId
    · have hfind : ∃ q, (room.players.eraseIdx i).find? (fun p => p.isConnected) = some q := by
        cases hf : (room.players.eraseIdx i).find? (fun p => p.isConnected) with
        | none =>
          exfalso
          apply hdel
          right
          rw [List.all_eq_true]
          intro x hx
          have := List.find?_eq_none.mp hf x hx
          simpa using this
        | some q => exact ⟨q, rfl⟩
      obtain ⟨q, hq⟩ := hfind
      rw [if_pos ⟨hhost, hlen⟩, hq]
      refine ⟨_, findRoom_setRoom hroom (findRoom_mem hroom).2, rfl, ?_, ?_⟩
      · intro _
        exact ⟨q, rfl, rfl⟩
      · intro hne
        exact absurd hhost hne
    · rw [if_neg (fun h => absurd h.1 hhost)]
      refine ⟨_, findRoom_setRoom hroom (findRoom_mem hroom).2, rfl, ?_, fun _ => rfl⟩
      intro h
      exact absurd h hhost

lemma le_foldlMax (l : List Player) :
    ∀ hs : Int, hs ≤ l.foldl (fun m p => max m p.score) hs := by
  induction l with
  | nil => intro hs; simp
  | cons a t ih =>
    intro hs
    exact le_trans (le_max_left _ _) (ih (max hs a.score))

lemma mem_le_foldlMax (l : List Player) :
    ∀ (hs : Int) (q : Player), q ∈ l → q.score ≤ l.foldl (fun m p => max m p.score) hs := by
  induction l with
  | nil => intro hs q hq; cases hq
  | cons a t ih =>
    intro hs q hq
    rcases List.mem_cons.mp hq with h | h
    · subst h
      exact le_trans (le_max_right _ _) (le_foldlMax t (max hs q.score))
    · exact ih (max hs a.score) q h

lemma foldlMax_all_le (l : List Player) :
    ∀ hs : Int, (∀ q ∈ l, q.score ≤ hs) → l.foldl (fun m p => max m p.score) hs = hs := by
  induction l with
  | nil => intro hs _; rfl
  | cons a t ih =>
    intro hs h
    have ha : a.score ≤ hs := h a (List.mem_cons_self a t)
    rw [List.foldl_cons, max_eq_left ha]
    exact ih hs (fun q hq => h q (List.mem_cons_of_mem a hq))

lemma foldlMax_attained (l : List Player) :
    ∀ hs : Int, l.foldl (fun m p => max m p.score) hs = hs ∨
      ∃ q ∈ l, l.foldl (fun m p => max m p.score) hs = q.score := by
  induction l with
  | nil => intro hs; exact Or.inl rfl
  | cons a t ih =>
    intro hs
    rw [List.foldl_cons]
    rcases le_total a.score hs with h | h
    · rw [max_eq_left h]
      rcases ih hs with h' | ⟨q, hq, h'⟩
      · exact Or.inl h'
      · exact Or.inr ⟨q, List.mem_cons_of_mem a hq, h'⟩
    · rw [max_eq_right h]
      rcases ih a.score with h' | ⟨q, hq, h'⟩
      · exact Or.inr ⟨a, List.mem_cons_self a t, h'⟩
      · exact Or.inr ⟨q, List.mem_cons_of_mem a hq, h'⟩

lemma winnerStep_not_lt {hs : Int} {u : Player} {a : Player} (h : ¬hs < a.score) :
    winnerStep (hs, some u) a = (hs, some u) := by
  unfold winnerStep
  rw [if_neg (by simpa using h)]
  split
  · rfl
  · rfl

lemma winnerStep_lt {hs : Int} {w : Option Player} {a : Player} (h : hs < a.score) :
    winnerStep (hs, w) a = (a.score, some a) := by
  unfold winnerStep
  rw [if_pos (by simpa using h)]

lemma foldl_winnerStep_chain (l : List Player) :
    ∀ (hs : Int) (u : Player),
      List.foldl winnerStep (hs, some u) l =
        (l.foldl (fun m p => max m p.score) hs,
         some (if l.any (fun p => hs < p.score) then
                 (l.find? (fun p => p.score = l.foldl (fun m p => max m p.score) hs)).getD u
               else u)) := by
  induction l with
  | nil => intro hs u; simp
  | cons a t ih =>
    intro hs u
    by_cases h1 : hs < a.score
    · rw [List.foldl_cons, winnerStep_lt h1, ih a.score a]
      have hmax : max hs a.score = a.score := max_eq_right (le_of_lt h1)
      have hM : (a :: t).foldl (fun m p => max m p.score) hs
          = t.foldl (fun m p => max m p.score) a.score := by
        rw [List.foldl_cons, hmax]
      have hany : (a :: t).any (fun p => hs < p.score) = true := by
        rw [List.any_cons]
        simp [h1]
      rw [hM, hany, if_pos rfl]
      by_cases h2 : t.any (fun p => a.score < p.score) = true
      · rw [if_pos h2]
        obtain ⟨x, hx, hxs⟩ := List.any_eq_true.mp h2
        have hlt : a.score < t.foldl (fun m p => max m p.score) a.score :=
          lt_of_lt_of_le (by simpa using hxs) (mem_le_foldlMax t a.score x hx)
        have hne : ¬(a.score = t.foldl (fun m p => max m p.score) a.score) := ne_of_lt hlt
        have hhead : List.find? (fun p => p.score = t.foldl (fun m q => max m q.score) a.score)
            (a :: t) = List.find? (fun p => p.score = t.foldl (fun m q => max m q.score) a.score) t := by
          rw [List.find?_cons]
          split
          · next hcontra => exact absurd (by simpa using hcontra) hne
          · rfl
        rw [hhead]
        have hattain : ∃ q ∈ t, t.foldl (fun m p => max m p.score) a.score = q.score := by
          rcases foldlMax_attained t a.score with h' | h'
          · exact absurd h' (by intro hcontra; rw [hcontra] at hlt; exact lt_irrefl _ hlt)
          · exact h'
        obtain ⟨q, hq, hqs⟩ := hattain
        have hfind : ∃ w, List.find? (fun p => p.score = t.foldl (fun m q => max m q.score) a.score)
            t = some w := by
          cases hf : List.find? (fun p => p.score = t.foldl (fun m q => max m q.score) a.score) t with
          | none =>
            exfalso
            have := List.find?_eq_none.mp hf q hq
            simp [hqs.symm] at this
          | some w => exact ⟨w, rfl⟩
        obtain ⟨w, hw⟩ := hfind
        rw [hw]
        rfl
      · rw [if_neg h2]
        have hall : ∀ q ∈ t, q.score ≤ a.score := by
          intro q hq
          by_contra hc
          exact h2 (List.any_eq_true.mpr ⟨q, hq, by simpa using lt_of_not_le hc⟩)
        have hMle : t.foldl (fun m p => max m p.score) a.score = a.score :=
          foldlMax_all_le t a.score hall
        rw [hMle, List.find?_cons]
        simp
    · rw [List.foldl_cons, winnerStep_not_lt h1, ih hs u]
      have hmax : max hs a.score = hs := max_eq_left (le_of_not_lt h1)
      have hM : (a :: t).foldl (fun m p => max m p.score) hs
          = t.foldl (fun m p => max m p.score) hs := by
        rw [List.foldl_cons, hmax]
      have hany : (a :: t).any (fun p => hs < p.score) = t.any (fun p => hs < p.score) := by
        rw [List.any_cons]
        simp [h1]
      rw [hM, hany]
      by_cases h2 : t.any (fun p => hs < p.score) = true
      · rw [if_pos h2, if_pos h2]
        obtain ⟨x, hx, hxs⟩ := List.any_eq_true.mp h2
        have hlt : hs < t.foldl (fun m p => max m p.score) hs :=
          lt_of_lt_of_le (by simpa using hxs) (mem_le_foldlMax t hs x hx)
        have hne : ¬(a.score = t.foldl (fun m p => max m p.score) hs) := by
          intro hcontra
          exact h1 (hcontra ▸ hlt)
        rw [List.find?_cons]
        split
        · next hcontra => exact absurd (by simpa using hcontra) hne
        · rfl
      · rw [if_neg h2, if_neg h2]

/-- Corrected claim C1: `getWinner` returns none unless the room exists
with status `completed`; on a completed room with players whose scores
are all nonnegative it returns the first player, in list order, whose
score equals the maximum score — including when the maximum score is 0
(the `highestScore > 0` tie guard only affects the tie branch, which can
never change the already-chosen winner). -/
theorem C1_getWinner_first_max (s : Store) (rid : String) :
    (findRoom s rid = none → getWinner s rid = none) ∧
    (∀ room, findRoom s rid = some room → room.status ≠ Status.completed →
      getWinner s rid = none) ∧
    (∀ room, findRoom s rid = some room → room.status = Status.completed →
      room.players ≠ [] → (∀ q ∈ room.players, 0 ≤ q.score) →
      ∃ w, getWinner s rid = some w ∧
        room.players.find? (fun q => q.score = maxScore room.players) = some w) := by
  refine ⟨?_, ?_, ?_⟩
  · intro h
    simp only [getWinner, h]
  · intro room hroom hst
    simp only [getWinner, hroom, getWinnerRoom]
    rw [if_neg hst]
  · intro room hroom hst hne hpos
    obtain ⟨p0, rest, hps⟩ := List.exists_cons_of_ne_nil hne
    have hp0 : (0 : Int) ≤ p0.score := hpos p0 (hps ▸ List.mem_cons_self p0 rest)
    simp only [getWinner, hroom, getWinnerRoom]
    rw [if_pos hst, hps, List.foldl_cons,
      winnerStep_lt (lt_of_lt_of_le (by norm_num) hp0),
      foldl_winnerStep_chain rest p0.score p0]
    have hmax : maxScore (p0 :: rest) = rest.foldl (fun m p => max m p.score) p0.score := by
      unfold maxScore
      rw [List.foldl_cons, max_eq_right (le_trans (by norm_num) hp0)]
    by_cases h2 : rest.any (fun p => p0.score < p.score) = true
    · rw [if_pos h2]
      obtain ⟨x, hx, hxs⟩ := List.any_eq_true.mp h2
      have hlt : p0.score < rest.foldl (fun m p => max m p.score) p0.score :=
        lt_of_lt_of_le (by simpa using hxs) (mem_le_foldlMax rest p0.score x hx)
      have hattain : ∃ q ∈ rest, rest.foldl (fun m p => max m p.score) p0.score = q.score := by
        rcases foldlMax_attained rest p0.score with h' | h'
        · exact absurd h' (by intro hcontra; rw [hcontra] at hlt; exact lt_irrefl _ hlt)
        · exact h'
      obtain ⟨q, hq, hqs⟩ := hattain
      have hfind : ∃ w, List.find? (fun p => p.score = rest.foldl
          (fun m q => max m q.score) p0.score) rest = some w := by
        cases hf : List.find? (fun p => p.score = rest.foldl
            (fun m q => max m q.score) p0.score) rest with
        | none =>
          exfalso
          have := List.find?_eq_none.mp hf q hq
          simp [hqs.symm] at this
        | some w => exact ⟨w, rfl⟩
      obtain ⟨w, hw⟩ := hfind
      refine ⟨w, by rw [hw]; rfl, ?_⟩
      rw [hmax, List.find?_cons]
      split
      · next hcontra =>
        exact absurd (by simpa using hcontra) (ne_of_lt hlt)
      · exact hw
    · rw [if_neg h2]
      have hall : ∀ q ∈ rest, q.score ≤ p0.score := by
        intro q hq
        by_contra hc
        exact h2 (List.any_eq_true.mpr ⟨q, hq, by simpa using lt_of_not_le hc⟩)
      have hMle : rest.foldl (fun m p => max m p.score) p0.score = p0.score :=
        foldlMax_all_le rest p0.score hall
      refine ⟨p0, rfl, ?_⟩
      rw [hmax, hMle, List.find?_cons]
      simp

/-- Counterexample for claim C1 as stated: a completed room in which
every player has score 0 still yields the first player as winner. -/
theorem C1_counterexample :
    zeroScoreRoom.status = Status.completed ∧
    (∀ q ∈ zeroScoreRoom.players, q.score = 0) ∧
    getWinner zeroScoreStore "Z" = some (mkPlayer "A" 0 0 true false) := by
  refine ⟨rfl, by decide, by decide⟩

/-- Corrected claim C2: `getActiveRooms` returns exactly the rooms that
are `waiting`, plus the `playing` rooms whose `lastActivity` is less than
24 hours in the past — `completed` rooms are never returned, whatever
their `lastActivity` — sorted with the newest `created` timestamp first. -/
theorem C2_getActiveRooms_spec (s : Store) (now : Int) :
    (∀ r : GameRoom, r ∈ getActiveRooms s now ↔ r ∈ s ∧
      (r.status = Status.waiting ∨
        (r.status = Status.playing ∧ now - r.lastActivity < maxInactiveTime))) ∧
    (getActiveRooms s now).Pairwise (fun a b => b.created ≤ a.created) := by
  constructor
  · intro r
    unfold getActiveRooms
    rw [List.Perm.mem_iff (List.mergeSort_perm _ _), List.mem_filter]
    unfold isActiveRoom
    simp
  · have htrans : ∀ a b c : GameRoom, (fun a b => decide (b.created ≤ a.created)) a b = true →
        (fun a b => decide (b.created ≤ a.created)) b c = true →
        (fun a b => decide (b.created ≤ a.created)) a c = true := by
      intro a b c hab hbc
      simp only [decide_eq_true_eq] at hab hbc ⊢
      exact le_trans hbc hab
    have htotal : ∀ a b : GameRoom, ((fun a b => decide (b.created ≤ a.created)) a b ||
        (fun a b => decide (b.created ≤ a.created)) b a) = true := by
      intro a b
      simp only [Bool.or_eq_true, decide_eq_true_eq]
      exact (le_total a.created b.created).symm
    have hs := List.sorted_mergeSort htrans htotal (List.filter (isActiveRoom now) s)
    unfold getActiveRooms
    exact hs.imp (fun h => by simpa using h)

/-- Counterexample for claim C2 as stated: a `completed` room whose
`lastActivity` is the current instant is excluded from the listing. -/
theorem C2_counterexample :
    freshCompletedRoom ∈ freshCompletedStore ∧
    freshCompletedRoom.status = Status.completed ∧
    (0 : Int) - freshCompletedRoom.lastActivity < maxInactiveTime ∧
    getActiveRooms freshCompletedStore 0 = [] := by
  refine ⟨by decide, rfl, by decide, ?_⟩
  unfold getActiveRooms
  rw [show List.filter (isActiveRoom 0) freshCompletedStore = [] from by decide]
  exact List.mergeSort_nil

/-- Witness for the corrected claim C1 at the A(30), B(30), C(10) tie. -/
theorem C1_witness :
    ∃ w, getWinner tieStore "T" = some w ∧
      tieRoom.players.find? (fun q => q.score = maxScore tieRoom.players) = some w :=
  (C1_getWinner_first_max tieStore "T").2.2 tieRoom (by decide) (by decide)
    (by decide) (by decide)

/-- Witness for claim C8: host H leaves the waiting room containing H
and P; the room survives with P as its only player and new host. -/
theorem C8_witness :
    ∃ out, removePlayerFromRoom twoPlayerWaiting "R" "H" 0 = some out ∧ out.1 = true ∧
      (((twoWaitingRoom.players.eraseIdx 0).length = 0 ∨
          (twoWaitingRoom.players.eraseIdx 0).all (fun p => ¬p.isConnected)) →
        findRoom out.2 "R" = none) ∧
      (¬((twoWaitingRoom.players.eraseIdx 0).length = 0 ∨
          (twoWaitingRoom.players.eraseIdx 0).all (fun p => ¬p.isConnected)) →
        ∃ room', findRoom out.2 "R" = some room' ∧
          room'.players = twoWaitingRoom.players.eraseIdx 0 ∧
          ("H" = twoWaitingRoom.hostId →
            ∃ q, (twoWaitingRoom.players.eraseIdx 0).find? (fun p => p.isConnected) = some q ∧
              room'.hostId = q.id) ∧
          ("H" ≠ twoWaitingRoom.hostId → room'.hostId = twoWaitingRoom.hostId)) :=
  C8_removePlayer_nonplaying twoPlayerWaiting "R" "H" 0 twoWaitingRoom 0
    (by decide) (by decide) (by decide)

/-! ### Shot-counter nonnegativity (claim C3) -/

lemma mem_of_getElem_some {α : Type} {l : List α} {i : Nat} {a : α}
    (h : l[i]? = some a) : a ∈ l := by
  rcases List.getElem?_eq_some.mp h with ⟨hlt, hv⟩
  exact hv ▸ List.getElem_mem hlt

lemma exists_of_mem_mapIdx {α β : Type} (f : Nat → α → β) (l : List α) :
    ∀ q ∈ l.mapIdx f, ∃ i x, x ∈ l ∧ q = f i x := by
  induction l generalizing f with
  | nil => intro q hq; simp at hq
  | cons a t ih =>
    intro q hq
    rw [List.mapIdx_cons] at hq
    rcases List.mem_cons.mp hq with h | h
    · exact ⟨0, a, List.mem_cons_self a t, h⟩
    · obtain ⟨i, x, hx, hq'⟩ := ih _ q h
      exact ⟨i + 1, x, List.mem_cons_of_mem a hx, hq'⟩

lemma shotsNonneg_setRoom {s : Store} {room : GameRoom}
    (hs : ShotsNonneg s) (h1 : 0 ≤ room.shotsPerPlayer)
    (h2 : ∀ p ∈ room.players, 0 ≤ p.shotsRemaining) :
    ShotsNonneg (setRoom s room) := by
  intro r hr
  rcases mem_setRoom hr with h | h
  · subst h; exact ⟨h1, h2⟩
  · exact hs r h

lemma shotsNonneg_removeRoom {s : Store} (hs : ShotsNonneg s) (rid : String) :
    ShotsNonneg (removeRoom s rid) := by
  intro r hr
  exact hs r (List.mem_filter.mp hr).1

lemma shots_createRoom (s : Store) (hostId hostName walletAddress roomName : String)
    (maxPlayers shotsPerPlayer rewardAmount : Int) (roomId : String) (now : Int)
    (hs : ShotsNonneg s) (hspp : 0 ≤ shotsPerPlayer) :
    ShotsNonneg (createRoom s hostId hostName walletAddress roomName
      maxPlayers shotsPerPlayer rewardAmount roomId now).2 := by
  refine shotsNonneg_setRoom hs hspp ?_
  intro p hp
  rw [List.mem_singleton] at hp
  subst hp
  exact hspp

lemma shots_addPlayer (s : Store) (rid : String) (pl : Player) (now : Int)
    (hs : ShotsNonneg s) : ShotsNonneg (addPlayerToRoom s rid pl now).2 := by
  cases hroom : findRoom s rid with
  | none => simp only [addPlayerToRoom, hroom]; exact hs
  | some room =>
    simp only [addPlayerToRoom, hroom]
    obtain ⟨hmem, _⟩ := findRoom_mem hroom
    obtain ⟨hspp, hpl⟩ := hs room hmem
    by_cases h1 : (room.players.length : Int) ≥ room.maxPlayers
    · rw [if_pos h1]; exact hs
    · rw [if_neg h1]
      by_cases h2 : room.status ≠ Status.waiting
      · rw [if_pos h2]; exact hs
      · rw [if_neg h2]
        cases hfi : List.findIdx? (fun p => p.id = pl.id) room.players with
        | some i =>
          simp only [hfi]
          refine shotsNonneg_setRoom hs hspp ?_
          intro q hq
          rcases List.mem_or_eq_of_mem_set hq with h | h
          · exact hpl q h
          · subst h; exact hspp
        | none =>
          simp only [hfi]
          refine shotsNonneg_setRoom hs hspp ?_
          intro q hq
          rcases List.mem_append.mp hq with h | h
          · exact hpl q h
          · rw [List.mem_singleton] at h; subst h; exact hspp

lemma shots_startGame (s : Store) (rid : String) (now : Int)
    (hs : ShotsNonneg s) : ShotsNonneg (startGame s rid now).2 := by
  cases hroom : findRoom s rid with
  | none => simp only [startGame, hroom]; exact hs
  | some room =>
    simp only [startGame, hroom]
    by_cases h1 : room.players.length < 2
    · rw [if_pos h1]; exact hs
    · rw [if_neg h1]
      obtain ⟨hmem, _⟩ := findRoom_mem hroom
      obtain ⟨hspp, hpl⟩ := hs room hmem
      refine shotsNonneg_setRoom hs hspp ?_
      intro q hq
      obtain ⟨i, x, hx, hq'⟩ := exists_of_mem_mapIdx _ _ q hq
      subst hq'
      exact hpl x hx

lemma shots_nextTurn (s : Store) (rid : String) (now : Int)
    (hs : ShotsNonneg s) :
    ∀ out, nextTurn s rid now = some out → ShotsNonneg out.2 := by
  intro out hout
  cases hroom : findRoom s rid with
  | none =>
    simp only [nextTurn, hroom] at hout
    cases hout
    exact hs
  | some room =>
    simp only [nextTurn, hroom] at hout
    by_cases hst : room.status ≠ Status.playing
    · rw [if_pos hst] at hout; cases hout; exact hs
    · rw [if_neg hst] at hout
      obtain ⟨hmem, _⟩ := findRoom_mem hroom
      obtain ⟨hspp, hpl⟩ := hs room hmem
      cases hscan : nextTurnScan room.players room.currentPlayerIndex 0
          (2 * room.players.length + 2) with
      | none => simp only [hscan] at hout; cases hout
      | some o =>
        simp only [hscan] at hout
        cases o with
        | none =>
          cases hout
          exact shotsNonneg_setRoom hs hspp hpl
        | some j =>
          cases hget : room.players[j]? with
          | none => simp only [hget] at hout; cases hout
          | some p =>
            simp only [hget] at hout
            cases hout
            refine shotsNonneg_setRoom hs hspp ?_
            intro q hq
            rcases List.mem_or_eq_of_mem_set hq with h | h
            · rcases List.mem_map.mp h with ⟨x, hx, hxq⟩
              subst hxq
              exact hpl x hx
            · subst h
              exact hpl p (mem_of_getElem_some hget)

lemma shots_resetGame (s : Store) (rid : String) (now : Int)
    (hs : ShotsNonneg s) :
    ∀ out, resetGame s rid now = some out → ShotsNonneg out.2 := by
  intro out hout
  cases hroom : findRoom s rid with
  | none => simp only [resetGame, hroom] at hout; cases hout; exact hs
  | some room =>
    simp only [resetGame, hroom] at hout
    obtain ⟨hmem, _⟩ := findRoom_mem hroom
    obtain ⟨hspp, _⟩ := hs room hmem
    cases hplayers : room.players with
    | nil => rw [hplayers] at hout; simp at hout
    | cons p0 rest =>
      rw [hplayers] at hout
      simp only [List.map_cons] at hout
      cases hout
      refine shotsNonneg_setRoom hs hspp ?_
      intro q hq
      rcases List.mem_cons.mp hq with h | h
      · subst h; exact hspp
      · rcases List.mem_map.mp h with ⟨x, hx, hxq⟩
        rcases List.mem_map.mp hx with ⟨y, _, hyx⟩
        subst hxq
        subst hyx
        exact hspp

lemma shots_removePlayer (s : Store) (rid pid : String) (now : Int)
    (hs : ShotsNonneg s) :
    ∀ out, removePlayerFromRoom s rid pid now = some out → ShotsNonneg out.2 := by
  intro out hout
  cases hroom : findRoom s rid with
  | none => simp only [removePlayerFromRoom, hroom] at hout; cases hout; exact hs
  | some room =>
    simp only [removePlayerFromRoom, hroom] at hout
    cases hfi : List.findIdx? (fun q => q.id = pid) room.players with
    | none => simp only [hfi] at hout; cases hout; exact hs
    | some i =>
      simp only [hfi] at hout
      obtain ⟨hmem, _⟩ := findRoom_mem hroom
      obtain ⟨hspp, hpl⟩ := hs room hmem
      by_cases hst : room.status = Status.playing
      · rw [if_pos hst] at hout
        cases hgp : room.players[i]? with
        | none => simp only [hgp] at hout; cases hout
        | some p =>
          simp only [hgp] at hout
          have hs₁ : ShotsNonneg (setRoom s { room with
              players := room.players.set i { p with isConnected := false } }) := by
            refine shotsNonneg_setRoom hs hspp ?_
            intro q hq
            rcases List.mem_or_eq_of_mem_set hq with h | h
            · exact hpl q h
            · subst h; exact hpl p (mem_of_getElem_some hgp)
          by_cases hcur : p.isCurrentTurn = true
          · rw [if_pos hcur] at hout
            cases hnt : nextTurn (setRoom s { room with
                players := room.players.set i { p with isConnected := false } }) rid now with
            | none => simp only [hnt] at hout; cases hout
            | some res =>
              simp only [hnt] at hout
              have hs₂ : ShotsNonneg res.2 := shots_nextTurn _ _ _ hs₁ res hnt
              cases hfr : findRoom res.2 rid with
              | none =>
                rcases res with ⟨b, s₂⟩
                simp only [hfr] at hout
                cases hout
              | some room₂ =>
                rcases res with ⟨b, s₂⟩
                simp only [hfr] at hout
                obtain ⟨hspp₂, hpl₂⟩ := hs₂ room₂ (findRoom_mem hfr).1
                by_cases hdel : room₂.players.length = 0 ∨
                    room₂.players.all (fun p => ¬p.isConnected)
                · rw [if_pos hdel] at hout
                  cases hout
                  exact shotsNonneg_removeRoom hs₂ rid
                · rw [if_neg hdel] at hout
                  cases hout
                  exact shotsNonneg_setRoom hs₂ hspp₂ hpl₂
          · rw [if_neg hcur] at hout
            dsimp only at hout
            have hroomOK : ∀ q ∈ room.players.set i { p with isConnected := false },
                0 ≤ q.shotsRemaining := by
              intro q hq
              rcases List.mem_or_eq_of_mem_set hq with h | h
              · exact hpl q h
              · subst h; exact hpl p (mem_of_getElem_some hgp)
            by_cases hdel : (room.players.set i { p with isConnected := false }).length = 0 ∨
                (room.players.set i { p with isConnected := false }).all
                  (fun p => ¬p.isConnected)
            · rw [if_pos hdel] at hout
              cases hout
              exact shotsNonneg_removeRoom hs₁ rid
            · rw [if_neg hdel] at hout
              cases hout
              exact shotsNonneg_setRoom hs₁ hspp hroomOK
      · rw [if_neg hst] at hout
        dsimp only at hout
        have hroomOK : ∀ q ∈ room.players.eraseIdx i, 0 ≤ q.shotsRemaining := by
          intro q hq
          exact hpl q (List.mem_of_mem_eraseIdx hq)
        by_cases hdel : (room.players.eraseIdx i).length = 0 ∨
            (room.players.eraseIdx i).all (fun p => ¬p.isConnected)
        · rw [if_pos hdel] at hout
          cases hout
          exact shotsNonneg_removeRoom hs rid
        · rw [if_neg hdel] at hout
          cases hout
          exact shotsNonneg_setRoom hs hspp hroomOK

lemma shots_updateScore (s : Store) (rid pid : String) (sc now : Int)
    (hs : ShotsNonneg s)
    (hguard : ∀ room i p, findRoom s rid = some room →
      List.findIdx? (fun q => q.id = pid) room.players = some i →
      room.players[i]? = some p → p.isCurrentTurn = true → 1 ≤ p.shotsRemaining) :
    ShotsNonneg (updatePlayerScore s rid pid sc now).2 := by
  cases hroom : findRoom s rid with
  | none => simp only [updatePlayerScore, hroom]; exact hs
  | some room =>
    simp only [updatePlayerScore, hroom]
    obtain ⟨hmem, _⟩ := findRoom_mem hroom
    obtain ⟨hspp, hpl⟩ := hs room hmem
    cases hfi : List.findIdx? (fun q => q.id = pid) room.players with
    | none => simp only [hfi]; exact hs
    | some i =>
      simp only [hfi]
      cases hget : room.players[i]? with
      | none => simp only [hget]; exact hs
      | some p =>
        simp only [hget]
        by_cases hcur : p.isCurrentTurn = true
        · rw [if_neg (by simp [hcur])]
          refine shotsNonneg_setRoom hs hspp ?_
          intro q hq
          rcases List.mem_or_eq_of_mem_set hq with h | h
          · exact hpl q h
          · subst h
            have := hguard room i p hroom hfi hget hcur
            show (0 : Int) ≤ p.shotsRemaining - 1
            omega
        · rw [if_pos (by simp [hcur])]
          exact hs

/-- Corrected claim C3: `shotsRemaining` starts at the room's
`shotsPerPlayer` and stays nonnegative under `createRoom` (with a
nonnegative `shotsPerPlayer` argument), `addPlayerToRoom`, `startGame`,
`nextTurn`, `resetGame` and `removePlayerFromRoom`; but `updatePlayerScore`
decrements the accepted player's counter by exactly 1 with no lower-bound
check, so it preserves nonnegativity only when that player still has a
shot left — repeated accepted calls by the still-current player drive the
counter below zero. -/
theorem C3_shots_nonneg (s : Store)
    (hostId hostName walletAddress roomName : String)
    (maxPlayers shotsPerPlayer rewardAmount : Int) (roomId : String)
    (rid pid : String) (pl : Player) (sc now : Int) :
    (ShotsNonneg s → 0 ≤ shotsPerPlayer →
      ShotsNonneg (createRoom s hostId hostName walletAddress roomName
        maxPlayers shotsPerPlayer rewardAmount roomId now).2) ∧
    (ShotsNonneg s → ShotsNonneg (addPlayerToRoom s rid pl now).2) ∧
    (ShotsNonneg s → ShotsNonneg (startGame s rid now).2) ∧
    (ShotsNonneg s → ∀ out, nextTurn s rid now = some out → ShotsNonneg out.2) ∧
    (ShotsNonneg s → ∀ out, resetGame s rid now = some out → ShotsNonneg out.2) ∧
    (ShotsNonneg s → ∀ out, removePlayerFromRoom s rid pid now = some out →
      ShotsNonneg out.2) ∧
    (ShotsNonneg s →
      (∀ room i p, findRoom s rid = some room →
        List.findIdx? (fun q => q.id = pid) room.players = some i →
        room.players[i]? = some p → p.isCurrentTurn = true → 1 ≤ p.shotsRemaining) →
      ShotsNonneg (updatePlayerScore s rid pid sc now).2) :=
  ⟨fun hs hspp => shots_createRoom s hostId hostName walletAddress roomName
      maxPlayers shotsPerPlayer rewardAmount roomId now hs hspp,
   fun hs => shots_addPlayer s rid pl now hs,
   fun hs => shots_startGame s rid now hs,
   fun hs => shots_nextTurn s rid now hs,
   fun hs => shots_resetGame s rid now hs,
   fun hs => shots_removePlayer s rid pid now hs,
   fun hs hguard => shots_updateScore s rid pid sc now hs hguard⟩

/-- Counterexample for claim C3 as stated: after `createRoom` with one
shot per player, two accepted score updates by the still-current host
leave `shotsRemaining = -1` in the store. -/
theorem C3_counterexample :
    ∃ room ∈ overdrawnStore, ∃ p ∈ room.players, p.shotsRemaining < 0 := by
  decide

/-- Witness for the corrected claim C3: an accepted score update by a
player with a shot left preserves nonnegativity. -/
theorem C3_witness : ShotsNonneg (updatePlayerScore threePlaying "R" "A" 3 0).2 := by
  apply (C3_shots_nonneg threePlaying "A" "A" "" "room" 4 1 0 "R" "R" "A"
    (mkPlayer "X" 0 0 true false) 3 0).2.2.2.2.2.2
  · unfold ShotsNonneg
    decide
  · intro room i p hroom hidx hget hcur
    rw [show findRoom threePlaying "R" = some threePlayingRoom from by decide] at hroom
    have hr := Option.some_inj.mp hroom
    subst hr
    rw [show List.findIdx? (fun q => q.id = "A") threePlayingRoom.players = some 0 from
      by decide] at hidx
    have hi := Option.some_inj.mp hidx
    subst hi
    rw [show threePlayingRoom.players[0]? = some (mkPlayer "A" 0 1 true true) from
      by decide] at hget
    have hp := Option.some_inj.mp hget
    subst hp
    decide

/-! ### Turn-flag invariant (claim C4) -/

lemma turnInv_setRoom {s : Store} {room : GameRoom}
    (hs : TurnInv s) (h1 : room.players ≠ [])
    (h2 : room.status = Status.playing →
      room.players.countP (fun p => p.isCurrentTurn) = 1 ∧
      (room.players[room.currentPlayerIndex]?).map Player.isCurrentTurn = some true) :
    TurnInv (setRoom s room) := by
  intro r hr
  rcases mem_setRoom hr with h | h
  · subst h; exact ⟨h1, h2⟩
  · exact hs r h

lemma turnInv_removeRoom {s : Store} (hs : TurnInv s) (rid : String) :
    TurnInv (removeRoom s rid) := by
  intro r hr
  exact hs r (List.mem_filter.mp hr).1

lemma countP_flag_congr {l l' : List Player}
    (h : l'.map Player.isCurrentTurn = l.map Player.isCurrentTurn) :
    l'.countP (fun q => q.isCurrentTurn) = l.countP (fun q => q.isCurrentTurn) := by
  have h1 : List.countP (fun b => b) (l'.map Player.isCurrentTurn) =
      List.countP (fun b => b) (l.map Player.isCurrentTurn) := by rw [h]
  simpa [List.countP_map, Function.comp] using h1

lemma getElem?_flag_congr {l l' : List Player} {i : Nat}
    (h : l'.map Player.isCurrentTurn = l.map Player.isCurrentTurn) :
    (l'[i]?).map Player.isCurrentTurn = (l[i]?).map Player.isCurrentTurn := by
  rw [← List.getElem?_map, ← List.getElem?_map, h]

lemma map_flag_set {l : List Player} {i : Nat} {p b : Player}
    (hget : l[i]? = some p) (hflag : b.isCurrentTurn = p.isCurrentTurn) :
    (l.set i b).map Player.isCurrentTurn = l.map Player.isCurrentTurn := by
  rw [List.map_set]
  apply set_getElem_self
  rw [List.getElem?_map, hget]
  simp [hflag]

lemma ne_nil_of_set {l : List Player} {i : Nat} {b : Player} (h : l ≠ []) :
    l.set i b ≠ [] := by
  have : 0 < (l.set i b).length := by
    rw [List.length_set]
    exact List.length_pos.mpr h
  exact List.length_pos.mp this

lemma countP_mapIdx_zero (l : List Player) :
    ∀ g : Nat → Player → Player, (∀ i p, (g i p).isCurrentTurn = false) →
      (l.mapIdx g).countP (fun q => q.isCurrentTurn) = 0 := by
  induction l with
  | nil => intro g _; simp
  | cons a t ih =>
    intro g hg
    rw [List.mapIdx_cons, List.countP_cons]
    rw [ih _ (fun i p => hg (i + 1) p)]
    simp [hg 0 a]

lemma turn_createRoom (s : Store) (hostId hostName walletAddress roomName : String)
    (maxPlayers shotsPerPlayer rewardAmount : Int) (roomId : String) (now : Int)
    (hs : TurnInv s) :
    TurnInv (createRoom s hostId hostName walletAddress roomName
      maxPlayers shotsPerPlayer rewardAmount roomId now).2 := by
  refine turnInv_setRoom hs (by simp) ?_
  intro habs
  exact absurd habs (by simp)

lemma turn_addPlayer (s : Store) (rid : String) (pl : Player) (now : Int)
    (hs : TurnInv s) : TurnInv (addPlayerToRoom s rid pl now).2 := by
  cases hroom : findRoom s rid with
  | none => simp only [addPlayerToRoom, hroom]; exact hs
  | some room =>
    simp only [addPlayerToRoom, hroom]
    obtain ⟨hmem, _⟩ := findRoom_mem hroom
    obtain ⟨hne, _⟩ := hs room hmem
    by_cases h1 : (room.players.length : Int) ≥ room.maxPlayers
    · rw [if_pos h1]; exact hs
    · rw [if_neg h1]
      by_cases h2 : room.status ≠ Status.waiting
      · rw [if_pos h2]; exact hs
      · rw [if_neg h2]
        rw [not_not] at h2
        cases hfi : List.findIdx? (fun p => p.id = pl.id) room.players with
        | some i =>
          simp only [hfi]
          refine turnInv_setRoom hs (ne_nil_of_set hne) ?_
          intro habs
          rw [h2] at habs
          exact absurd habs (by simp)
        | none =>
          simp only [hfi]
          refine turnInv_setRoom hs (by simp) ?_
          intro habs
          rw [h2] at habs
          exact absurd habs (by simp)

lemma turn_startGame (s : Store) (rid : String) (now : Int)
    (hs : TurnInv s) : TurnInv (startGame s rid now).2 := by
  cases hroom : findRoom s rid with
  | none => simp only [startGame, hroom]; exact hs
  | some room =>
    simp only [startGame, hroom]
    by_cases h1 : room.players.length < 2
    · rw [if_pos h1]; exact hs
    · rw [if_neg h1]
      have hne : room.players ≠ [] := by
        intro h
        rw [h] at h1
        simp at h1
      obtain ⟨p0, rest, hps⟩ := List.exists_cons_of_ne_nil hne
      refine turnInv_setRoom hs ?_ ?_
      · show room.players.mapIdx _ ≠ []
        rw [hps, List.mapIdx_cons]
        simp
      · intro _
        constructor
        · show (room.players.mapIdx fun i p => { p with isCurrentTurn := i == 0 }).countP
            (fun q => q.isCurrentTurn) = 1
          rw [hps, List.mapIdx_cons, List.countP_cons,
            countP_mapIdx_zero rest _ (fun i p => by simp)]
          simp
        · show ((room.players.mapIdx fun i p =>
              { p with isCurrentTurn := i == 0 })[0]?).map Player.isCurrentTurn = some true
          rw [List.getElem?_mapIdx, hps]
          simp

lemma turn_updateScore (s : Store) (rid pid : String) (sc now : Int)
    (hs : TurnInv s) : TurnInv (updatePlayerScore s rid pid sc now).2 := by
  cases hroom : findRoom s rid with
  | none => simp only [updatePlayerScore, hroom]; exact hs
  | some room =>
    simp only [updatePlayerScore, hroom]
    obtain ⟨hmem, _⟩ := findRoom_mem hroom
    obtain ⟨hne, hplay⟩ := hs room hmem
    cases hfi : List.findIdx? (fun q => q.id = pid) room.players with
    | none => simp only [hfi]; exact hs
    | some i =>
      simp only [hfi]
      cases hget : room.players[i]? with
      | none => simp only [hget]; exact hs
      | some p =>
        simp only [hget]
        by_cases hcur : p.isCurrentTurn = true
        · rw [if_neg (by simp [hcur])]
          have hmap : (room.players.set i
              { p with score := p.score + sc, shotsRemaining := p.shotsRemaining - 1 }).map
                Player.isCurrentTurn = room.players.map Player.isCurrentTurn :=
            map_flag_set hget rfl
          refine turnInv_setRoom hs (ne_nil_of_set hne) ?_
          intro hp
          obtain ⟨hcount, hidx⟩ := hplay hp
          refine ⟨?_, ?_⟩
          · exact (countP_flag_congr hmap).trans hcount
          · exact (getElem?_flag_congr hmap).trans hidx
        · rw [if_pos (by simp [hcur])]
          exact hs

lemma turn_nextTurn (s : Store) (rid : String) (now : Int)
    (hs : TurnInv s) :
    ∀ out, nextTurn s rid now = some out → TurnInv out.2 := by
  intro out hout
  cases hroom : findRoom s rid with
  | none => simp only [nextTurn, hroom] at hout; cases hout; exact hs
  | some room =>
    simp only [nextTurn, hroom] at hout
    by_cases hst : room.status ≠ Status.playing
    · rw [if_pos hst] at hout; cases hout; exact hs
    · rw [if_neg hst] at hout
      obtain ⟨hmem, _⟩ := findRoom_mem hroom
      obtain ⟨hne, _⟩ := hs room hmem
      cases hscan : nextTurnScan room.players room.currentPlayerIndex 0
          (2 * room.players.length + 2) with
      | none => simp only [hscan] at hout; cases hout
      | some o =>
        simp only [hscan] at hout
        cases o with
        | none =>
          cases hout
          refine turnInv_setRoom hs hne ?_
          intro habs
          exact absurd habs (by simp)
        | some j =>
          cases hget : room.players[j]? with
          | none => simp only [hget] at hout; cases hout
          | some p =>
            simp only [hget] at hout
            cases hout
            have hjlt : j < room.players.length := by
              rcases List.getElem?_eq_some.mp hget with ⟨h, _⟩
              exact h
            refine turnInv_setRoom hs (ne_nil_of_set (by simpa using hne)) ?_
            intro _
            constructor
            · exact countP_set_flag room.players j _ hjlt rfl
            · show (((room.players.map fun p => { p with isCurrentTurn := false }).set j
                { p with isCurrentTurn := true })[j]?).map Player.isCurrentTurn = some true
              rw [List.getElem?_set_self (by simpa using hjlt)]
              rfl

lemma turn_resetGame (s : Store) (rid : String) (now : Int)
    (hs : TurnInv s) :
    ∀ out, resetGame s rid now = some out → TurnInv out.2 := by
  intro out hout
  cases hroom : findRoom s rid with
  | none => simp only [resetGame, hroom] at hout; cases hout; exact hs
  | some room =>
    simp only [resetGame, hroom] at hout
    cases hplayers : room.players with
    | nil => rw [hplayers] at hout; simp at hout
    | cons p0 rest =>
      rw [hplayers] at hout
      simp only [List.map_cons] at hout
      cases hout
      refine turnInv_setRoom hs (by simp) ?_
      intro habs
      exact absurd habs (by simp)

lemma turn_removePlayer (s : Store) (rid pid : String) (now : Int)
    (hs : TurnInv s) :
    ∀ out, removePlayerFromRoom s rid pid now = some out → TurnInv out.2 := by
  intro out hout
  cases hroom : findRoom s rid with
  | none => simp only [removePlayerFromRoom, hroom] at hout; cases hout; exact hs
  | some room =>
    simp only [removePlayerFromRoom, hroom] at hout
    cases hfi : List.findIdx? (fun q => q.id = pid) room.players with
    | none => simp only [hfi] at hout; cases hout; exact hs
    | some i =>
      simp only [hfi] at hout
      obtain ⟨hmem, _⟩ := findRoom_mem hroom
      obtain ⟨hne, hplay⟩ := hs room hmem
      by_cases hst : room.status = Status.playing
      · rw [if_pos hst] at hout
        cases hgp : room.players[i]? with
        | none => simp only [hgp] at hout; cases hout
        | some p =>
          simp only [hgp] at hout
          have hmap₁ : (room.players.set i { p with isConnected := false }).map
              Player.isCurrentTurn = room.players.map Player.isCurrentTurn :=
            map_flag_set hgp rfl
          have hs₁ : TurnInv (setRoom s { room with
              players := room.players.set i { p with isConnected := false } }) := by
            refine turnInv_setRoom hs (ne_nil_of_set hne) ?_
            intro hp
            obtain ⟨hcount, hidx⟩ := hplay hp
            exact ⟨(countP_flag_congr hmap₁).trans hcount,
              (getElem?_flag_congr hmap₁).trans hidx⟩
          by_cases hcur : p.isCurrentTurn = true
          · rw [if_pos hcur] at hout
            cases hnt : nextTurn (setRoom s { room with
                players := room.players.set i { p with isConnected := false } }) rid now with
            | none => simp only [hnt] at hout; cases hout
            | some res =>
              simp only [hnt] at hout
              have hs₂ : TurnInv res.2 := turn_nextTurn _ _ _ hs₁ res hnt
              cases hfr : findRoom res.2 rid with
              | none =>
                rcases res with ⟨b, s₂⟩
                simp only [hfr] at hout
                cases hout
              | some room₂ =>
                rcases res with ⟨b, s₂⟩
                simp only [hfr] at hout
                obtain ⟨hne₂, hplay₂⟩ := hs₂ room₂ (findRoom_mem hfr).1
                by_cases hdel : room₂.players.length = 0 ∨
                    room₂.players.all (fun p => ¬p.isConnected)
                · rw [if_pos hdel] at hout
                  cases hout
                  exact turnInv_removeRoom hs₂ rid
                · rw [if_neg hdel] at hout
                  cases hout
                  exact turnInv_setRoom hs₂ hne₂ hplay₂
          · rw [if_neg hcur] at hout
            dsimp only at hout
            by_cases hdel : (room.players.set i { p with isConnected := false }).length = 0 ∨
                (room.players.set i { p with isConnected := false }).all
                  (fun p => ¬p.isConnected)
            · rw [if_pos hdel] at hout
              cases hout
              exact turnInv_removeRoom hs₁ rid
            · rw [if_neg hdel] at hout
              cases hout
              refine turnInv_setRoom hs₁ (ne_nil_of_set hne) ?_
              intro hp
              obtain ⟨hcount, hidx⟩ := hplay hp
              exact ⟨(countP_flag_congr hmap₁).trans hcount,
                (getElem?_flag_congr hmap₁).trans hidx⟩
      · rw [if_neg hst] at hout
        dsimp only at hout
        by_cases hdel : (room.players.eraseIdx i).length = 0 ∨
            (room.players.eraseIdx i).all (fun p => ¬p.isConnected)
        · rw [if_pos hdel] at hout
          cases hout
          exact turnInv_removeRoom hs rid
        · rw [if_neg hdel] at hout
          cases hout
          have hnel : room.players.eraseIdx i ≠ [] := by
            apply List.length_pos.mp
            rcases Nat.eq_zero_or_pos (room.players.eraseIdx i).length with h | h
            · exact absurd (Or.inl h) hdel
            · exact h
          refine turnInv_setRoom hs hnel ?_
          intro habs
          exact absurd habs hst

/-- Corrected claim C4: in every room of a store satisfying the turn
invariant ("a `playing` room has exactly one `isCurrentTurn` player and
`currentPlayerIndex` points at a flagged player"), the invariant is
preserved by `createRoom`, `addPlayerToRoom`, `startGame`,
`updatePlayerScore`, `nextTurn`, `resetGame` and `removePlayerFromRoom` —
but not by `updatePlayerInRoom` (or `updateRoom`), which install arbitrary
caller-supplied data and can produce two flagged players (see the
counterexample). -/
theorem C4_turn_invariant (s : Store)
    (hostId hostName walletAddress roomName : String)
    (maxPlayers shotsPerPlayer rewardAmount : Int) (roomId : String)
    (rid pid : String) (pl : Player) (sc now : Int) :
    (TurnInv s → TurnInv (createRoom s hostId hostName walletAddress roomName
      maxPlayers shotsPerPlayer rewardAmount roomId now).2) ∧
    (TurnInv s → TurnInv (addPlayerToRoom s rid pl now).2) ∧
    (TurnInv s → TurnInv (startGame s rid now).2) ∧
    (TurnInv s → TurnInv (updatePlayerScore s rid pid sc now).2) ∧
    (TurnInv s → ∀ out, nextTurn s rid now = some out → TurnInv out.2) ∧
    (TurnInv s → ∀ out, resetGame s rid now = some out → TurnInv out.2) ∧
    (TurnInv s → ∀ out, removePlayerFromRoom s rid pid now = some out → TurnInv out.2) :=
  ⟨fun hs => turn_createRoom s hostId hostName walletAddress roomName
      maxPlayers shotsPerPlayer rewardAmount roomId now hs,
   fun hs => turn_addPlayer s rid pl now hs,
   fun hs => turn_startGame s rid now hs,
   fun hs => turn_updateScore s rid pid sc now hs,
   fun hs => turn_nextTurn s rid now hs,
   fun hs => turn_resetGame s rid now hs,
   fun hs => turn_removePlayer s rid pid now hs⟩

/-- Counterexample for claim C4 as stated: `updatePlayerInRoom` accepts a
player record with `isCurrentTurn = true` while the host still holds the
turn, leaving a playing room with two flagged players. -/
theorem C4_counterexample :
    (findRoom doubleTurnStore "R").map
      (fun r => (r.status, r.players.countP (fun p => p.isCurrentTurn))) =
      some (Status.playing, 2) := by
  decide

/-- Witness for the corrected claim C4: the invariant survives the first
score-plus-advance step of the three-player scenario. -/
theorem C4_witness : TurnInv scenarioS1 := by
  apply (C4_turn_invariant (updatePlayerScore threePlaying "R" "A" 3 0).2
    "A" "A" "" "room" 4 1 0 "R" "R" "A" (mkPlayer "X" 0 0 true false) 3
    0).2.2.2.2.1 ?_ (true, scenarioS1) (by decide)
  unfold TurnInv
  decide

end KeylessGolf
